import Mathlib

/-!
# Sparse 1-D stencil reference kernels and the external-compiler configuration

A shallow embedding of `lang/tests/stencil1d.cpp` (the hand-written reference
kernels over an `unordered_map<int, Tile>` store and the store the test
builds) and of `CompileConfig`, `BinaryType` and `TypedConstant` from
`lang/util.h`, with the properties the design document states about them.

Conventions of the embedding.

* `int` is `Int`; an arithmetic result outside `[INT_MIN, INT_MAX]` is a fault
  (signed overflow is undefined), rendered as `none`.
* `/` and `%` on `int` are `Int.tdiv` and `Int.tmod` (truncation toward zero).
* An array subscript outside the array's bounds, and a read or write through a
  null pointer, is a fault, rendered as `none`.
* `float` is a type parameter `F` together with the handful of operations the
  kernels use (`FloatOps`); no law of arithmetic is assumed of them.
* Every non-null `Block *` slot owns its block (each one comes from its own
  `new ::Block` in the test), so a tile is a table of optional blocks.
* The global `data` is passed explicitly; a function that could modify it
  returns the new store.
-/

namespace Stencil1d

/-! ## Data model -/

/-- The operations on `float` used by the kernels: the value of the `int`
literal `0` converted to `float`, the constant `1.0f / 3`, addition and
multiplication. -/
structure FloatOps (F : Type) where
  zero : F
  third : F
  add : F → F → F
  mul : F → F → F

/-- The record `struct Node { float x, y; }`. -/
structure Node (F : Type) where
  x : F
  y : F

/-- The constant `Block::size`. -/
abbrev Block.size : Nat := 256

/-- The constant `Tile::size`. -/
abbrev Tile.size : Nat := 1024

/-- The record `struct Block { Node nodes[size]; }`. -/
structure Block (F : Type) where
  nodes : Fin Block.size → Node F

/-- The record `struct Tile { Block *blocks[size]; }`; `none` is `nullptr`. -/
structure Tile (F : Type) where
  blocks : Fin Tile.size → Option (Block F)

/-- The constant `dim1 = Block::size`. -/
abbrev dim1 : Int := Block.size

/-- The constant `dim0 = Tile::size * dim1`. -/
abbrev dim0 : Int := Tile.size * dim1

/-- The global `std::unordered_map<int, Tile> data`, as the sequence of its
entries in iteration order. A well-formed map has pairwise distinct keys
(`Store.WF`). -/
abbrev Store (F : Type) : Type := List (Int × Tile F)

/-- The keys of the entries, in iteration order. -/
def Store.keys {F : Type} (data : Store F) : List Int :=
  data.map Prod.fst

/-- The representation invariant of `unordered_map`: no key occurs twice. -/
def Store.WF {F : Type} (data : Store F) : Prop :=
  data.keys.Nodup

/-- All tile keys lie in `[0, 8192)`, the extent of the `hashed` level. -/
def Store.KeysInRange {F : Type} (data : Store F) : Prop :=
  ∀ key ∈ data.keys, 0 ≤ key ∧ key < 8192

/-- A value-initialised `Tile`: every block pointer is null. -/
def Tile.null {F : Type} : Tile F :=
  ⟨fun _ => none⟩

/-! ## Machine arithmetic -/

/-- The least `int`. -/
abbrev INT_MIN : Int := -2147483648

/-- The greatest `int`. -/
abbrev INT_MAX : Int := 2147483647

/-- The result of an `int` operation: a fault when it is not representable. -/
def int_ok (z : Int) : Option Int :=
  if INT_MIN ≤ z ∧ z ≤ INT_MAX then some z else none

/-- Addition `a + b` on `int`. -/
def int_add (a b : Int) : Option Int :=
  int_ok (a + b)

/-- Subtraction `a - b` on `int`. -/
def int_sub (a b : Int) : Option Int :=
  int_ok (a - b)

/-- Multiplication `a * b` on `int`. -/
def int_mul (a b : Int) : Option Int :=
  int_ok (a * b)

/-- The tile key `i / dim0` of a flat index. -/
def tile_index (i : Int) : Int :=
  i.tdiv dim0

/-- The block subscript `i % dim0 / dim1` of a flat index. -/
def block_index (i : Int) : Int :=
  (i.tmod dim0).tdiv dim1

/-- The node subscript `i % dim1` of a flat index. -/
def node_index (i : Int) : Int :=
  i.tmod dim1

/-- The flat index `key * dim0 + b * dim1 + n` computed by `copy_ref`,
`stencil_ref` and the test's initialisation, in `int` arithmetic. -/
def flat_index (key b n : Int) : Option Int :=
  (int_mul key dim0).bind fun p =>
  (int_mul b dim1).bind fun q =>
  (int_add p q).bind fun s =>
  int_add s n

/-! ## Access to the store -/

/-- The subscript `tile.blocks[j]` with an `int` subscript: a fault outside
`[0, Tile::size)`, otherwise the pointer stored there. -/
def block_slot {F : Type} (tile : Tile F) (j : Int) : Option (Option (Block F)) :=
  if h : 0 ≤ j ∧ j < Tile.size then
    some (tile.blocks ⟨j.toNat, by omega⟩)
  else none

/-- The subscript `block->nodes[j]` with an `int` subscript: a fault outside
`[0, Block::size)`. -/
def node_slot {F : Type} (block : Block F) (j : Int) : Option (Node F) :=
  if h : 0 ≤ j ∧ j < Block.size then
    some (block.nodes ⟨j.toNat, by omega⟩)
  else none

/-- The lookup `data.find(key)`: `none` stands for `data.end()`. -/
def find {F : Type} (data : Store F) (key : Int) : Option (Tile F) :=
  data.lookup key

/-- The inserting subscript `data[key]`: the tile stored under `key`, after
inserting a value-initialised tile when the key is absent. -/
def map_subscript {F : Type} (data : Store F) (key : Int) : Tile F × Store F :=
  match find data key with
  | some tile => (tile, data)
  | none => (Tile.null, data ++ [(key, Tile.null)])

/-- The function `safe_access_x(i)`: the value returned and the store after
the call, or a fault. -/
def safe_access_x {F : Type} (fl : FloatOps F) (data : Store F) (i : Int) :
    Option (F × Store F) :=
  if (find data (tile_index i)).isNone then
    some (fl.zero, data)
  else
    let r1 := map_subscript data (tile_index i)
    match block_slot r1.1 (block_index i) with
    | none => none
    | some none => some (fl.zero, r1.2)
    | some (some _) =>
      let r2 := map_subscript r1.2 (tile_index i)
      match block_slot r2.1 (block_index i) with
      | some (some block) =>
        (node_slot block (node_index i)).map fun nd => (nd.x, r2.2)
      | _ => none

/-! ## The reference kernels -/

/-- The block pointer `tile.blocks[b]` of the `k`-th entry of the map. -/
def block_at {F : Type} (data : Store F) (k : Nat) (b : Fin Tile.size) :
    Option (Block F) :=
  data[k]?.bind fun it => it.2.blocks b

/-- The node `nodes[n]` of block `b` of the `k`-th entry, when allocated. -/
def node_at {F : Type} (data : Store F) (k : Nat) (b : Fin Tile.size)
    (n : Fin Block.size) : Option (Node F) :=
  (block_at data k b).map fun blk => blk.nodes n

/-- The block after the assignment `nodes[n].y = v`. -/
def Block.setY {F : Type} (blk : Block F) (n : Fin Block.size) (v : F) : Block F :=
  ⟨fun m => if m = n then ⟨(blk.nodes m).x, v⟩ else blk.nodes m⟩

/-- The tile whose slot `b` holds `blk`, the other slots unchanged. -/
def Tile.setBlock {F : Type} (tile : Tile F) (b : Fin Tile.size) (blk : Block F) :
    Tile F :=
  ⟨fun c => if c = b then some blk else tile.blocks c⟩

/-- The assignment `block->nodes[n].y = v` through the pointer
`block = tile.blocks[b]` taken from the `k`-th entry: a fault when that entry
or block does not exist. -/
def write_y {F : Type} (data : Store F) (k : Nat) (b : Fin Tile.size)
    (n : Fin Block.size) (v : F) : Option (Store F) :=
  match data[k]? with
  | none => none
  | some it =>
    match it.2.blocks b with
    | none => none
    | some blk => some (data.set k (it.1, it.2.setBlock b (blk.setY n v)))

/-- The loop `for (int n = 0; n < Block::size; n++)`. -/
def node_loop {F : Type} (body : Store F → Fin Block.size → Option (Store F))
    (data : Store F) : Option (Store F) :=
  (List.finRange Block.size).foldlM body data

/-- The loop `for (int b = 0; b < Tile::size; b++)` over the blocks of the
`k`-th entry, skipping the null slots (`if (!block) continue;`). -/
def block_loop {F : Type}
    (body : Store F → Fin Tile.size → Fin Block.size → Option (Store F))
    (k : Nat) (data : Store F) : Option (Store F) :=
  (List.finRange Tile.size).foldlM
    (fun d b =>
      match block_at d k b with
      | none => some d
      | some _ => node_loop (fun d n => body d b n) d)
    data

/-- The loop nest shared by `copy_ref`, `copy_optimized` and `stencil_ref`:
`for (auto &it : data)`, then the blocks of `it.second`, then the nodes of
each allocated block. The body receives the current store, the position `k`
of `it`, the key `it.first`, and the subscripts `b` and `n`. -/
def for_each_node {F : Type}
    (body : Store F → Nat → Int → Fin Tile.size → Fin Block.size → Option (Store F))
    (data : Store F) : Option (Store F) :=
  (List.range data.length).foldlM
    (fun d k =>
      match d[k]? with
      | none => none
      | some it => block_loop (fun d b n => body d k it.1 b n) k d)
    data

/-- The body of `copy_ref`:
`int i = it.first * dim0 + b * dim1 + n; block->nodes[n].y = safe_access_x(i);` -/
def copy_ref_body {F : Type} (fl : FloatOps F) (data : Store F) (k : Nat) (key : Int)
    (b : Fin Tile.size) (n : Fin Block.size) : Option (Store F) :=
  (flat_index key (b.val : Int) (n.val : Int)).bind fun i =>
  (safe_access_x fl data i).bind fun r =>
  write_y r.2 k b n r.1

/-- The function `copy_ref()`. -/
def copy_ref {F : Type} (fl : FloatOps F) (data : Store F) : Option (Store F) :=
  for_each_node (copy_ref_body fl) data

/-- The body of `copy_optimized`: `block->nodes[n].y = block->nodes[n].x;` -/
def copy_optimized_body {F : Type} (data : Store F) (k : Nat) (_key : Int)
    (b : Fin Tile.size) (n : Fin Block.size) : Option (Store F) :=
  (block_at data k b).bind fun block =>
  write_y data k b n (block.nodes n).x

/-- The function `copy_optimized()`. -/
def copy_optimized {F : Type} (data : Store F) : Option (Store F) :=
  for_each_node copy_optimized_body data

/-- The body of `stencil_ref`: `int i = it.first * dim0 + b * dim1 + n;` and
`block->nodes[n].y = (1.0f / 3) * (safe_access_x(i - 1) + safe_access_x(i) +
safe_access_x(i + 1));`. -/
def stencil_ref_body {F : Type} (fl : FloatOps F) (data : Store F) (k : Nat) (key : Int)
    (b : Fin Tile.size) (n : Fin Block.size) : Option (Store F) :=
  (flat_index key (b.val : Int) (n.val : Int)).bind fun i =>
  (int_sub i 1).bind fun il =>
  (safe_access_x fl data il).bind fun r1 =>
  (safe_access_x fl r1.2 i).bind fun r2 =>
  (int_add i 1).bind fun ir =>
  (safe_access_x fl r2.2 ir).bind fun r3 =>
  write_y r3.2 k b n (fl.mul fl.third (fl.add (fl.add r1.1 r2.1) r3.1))

/-- The function `stencil_ref()`. -/
def stencil_ref {F : Type} (fl : FloatOps F) (data : Store F) : Option (Store F) :=
  for_each_node (stencil_ref_body fl) data

/-- The value `safe_access_x(i)` returns. -/
def safe_read {F : Type} (fl : FloatOps F) (data : Store F) (i : Int) : Option F :=
  (safe_access_x fl data i).map Prod.fst

/-- Two stores with the same keys, the same allocated blocks and the same `x`
fields: the relation between the store before a kernel and the store at any
point of its run. -/
def Agree {F : Type} (d0 d : Store F) : Prop :=
  d.keys = d0.keys ∧
  ∀ k b n, (node_at d k b n).map Node.x = (node_at d0 k b n).map Node.x

/-- The state of a kernel that has so far written the positions in `P`: the
keys, the allocated blocks and every `x` are those of the initial store `d0`,
a written node holds the value `val` gives for its position in `y`, and a node
not yet written is as it was. -/
def Filled {F : Type} (val : Nat → Fin Tile.size → Fin Block.size → Option F)
    (P : Nat → Fin Tile.size → Fin Block.size → Prop) (d0 d : Store F) : Prop :=
  d.keys = d0.keys ∧
  ∀ k b n,
    (node_at d0 k b n = none → node_at d k b n = none) ∧
    ∀ nd, node_at d0 k b n = some nd →
      (P k b n → ∃ v, val k b n = some v ∧ node_at d k b n = some ⟨nd.x, v⟩) ∧
      (¬ P k b n → node_at d k b n = some nd)

/-- A loop body that writes `val k b n` into `nodes[n].y` of block `b` of
entry `k`, or faults when `val` does, on every store that agrees with `d0`. -/
def BodySpec {F : Type}
    (body : Store F → Nat → Int → Fin Tile.size → Fin Block.size → Option (Store F))
    (val : Nat → Fin Tile.size → Fin Block.size → Option F) (d0 : Store F) : Prop :=
  ∀ d k key b n, Agree d0 d → d0.keys[k]? = some key → (block_at d0 k b).isSome →
    body d k key b n = (val k b n).bind fun v => write_y d k b n v

/-- The value `copy_ref` writes into `nodes[n].y` of block `b` of entry `k`:
the safe read, on the initial store, at the flat index of that node. -/
def copy_ref_val {F : Type} (fl : FloatOps F) (d0 : Store F) (k : Nat)
    (b : Fin Tile.size) (n : Fin Block.size) : Option F :=
  d0.keys[k]?.bind fun key =>
  (flat_index key (b.val : Int) (n.val : Int)).bind fun i =>
  safe_read fl d0 i

/-- The value `copy_optimized` writes into `nodes[n].y`: the node's own `x`. -/
def copy_optimized_val {F : Type} (d0 : Store F) (k : Nat)
    (b : Fin Tile.size) (n : Fin Block.size) : Option F :=
  (node_at d0 k b n).map Node.x

/-- The value `stencil_ref` writes into `nodes[n].y` of block `b` of entry
`k`: a third of the sum of the three safe reads, on the initial store, around
the flat index of that node. -/
def stencil_ref_val {F : Type} (fl : FloatOps F) (d0 : Store F) (k : Nat)
    (b : Fin Tile.size) (n : Fin Block.size) : Option F :=
  d0.keys[k]?.bind fun key =>
  (flat_index key (b.val : Int) (n.val : Int)).bind fun i =>
  (int_sub i 1).bind fun il =>
  (safe_read fl d0 il).bind fun xl =>
  (safe_read fl d0 i).bind fun xc =>
  (int_add i 1).bind fun ir =>
  (safe_read fl d0 ir).bind fun xr =>
  some (fl.mul fl.third (fl.add (fl.add xl xc) xr))

/-- The direct read `block->nodes[n].x` through a block pointer, with zero
standing in for the read when the pointer is null. -/
def block_x_or_zero {F : Type} (fl : FloatOps F) (block : Option (Block F))
    (n : Fin Block.size) : F :=
  match block with
  | none => fl.zero
  | some blk => (blk.nodes n).x

/-- The direct read `tile.blocks[b]->nodes[n].x` in the tile a lookup has
returned, with zero standing in for the read when the tile is absent or the
block pointer is null. -/
def tile_x_or_zero {F : Type} (fl : FloatOps F) (tile : Option (Tile F))
    (b : Fin Tile.size) (n : Fin Block.size) : F :=
  match tile with
  | none => fl.zero
  | some t => block_x_or_zero fl (t.blocks b) n

/-- The subscript `n - 1` of the left neighbour of node `n` within its block
(meant for `n ≥ 1`). -/
def left_of (n : Fin Block.size) : Fin Block.size :=
  ⟨n.val - 1, lt_of_le_of_lt (Nat.sub_le _ _) n.isLt⟩

/-- The subscript `n + 1` of the right neighbour of node `n ≤ 254` within its
block. -/
def right_of (n : Fin Block.size) (h : n.val ≤ 254) : Fin Block.size :=
  ⟨n.val + 1, Nat.succ_lt_succ (Nat.lt_succ_of_le h)⟩

/-! ## Concrete stores -/

/-- Exact rational arithmetic in the place of `float`, for concrete examples. -/
def ratOps : FloatOps ℚ :=
  ⟨0, 1 / 3, fun a b => a + b, fun a b => a * b⟩

/-- A block whose node `n` has `x = n` and `y = 0`. -/
def ramp_block : Block ℚ :=
  ⟨fun n => ⟨(n.val : ℚ), 0⟩⟩

/-- A store with the single tile 5, whose only allocated block is slot 12. -/
def sample_store : Store ℚ :=
  [(5, ⟨fun b => if b.val = 12 then some ramp_block else none⟩)]

/-- A store with the single tile 0, whose only allocated block is slot 0: its
first node has the flat index 0. -/
def origin_store : Store ℚ :=
  [(0, ⟨fun b => if b.val = 0 then some ramp_block else none⟩)]

/-- A store with the single tile 8191, whose only allocated block is slot 1023:
its last node has the flat index `INT_MAX`. -/
def corner_store : Store ℚ :=
  [(8191, ⟨fun b => if b.val = 1023 then some ramp_block else none⟩)]

/-! ## Running a kernel several times -/

/-- The loop `for (int i = 0; i < m; i++) kernel();` of the test, which stops
at the first fault. -/
def run_times {F : Type} (kernel : Store F → Option (Store F)) :
    Nat → Store F → Option (Store F)
  | 0, data => some data
  | m + 1, data => (kernel data).bind (run_times kernel m)

/-! ## The store the test builds -/

/-- The block the test allocates for slot `j` of tile `i`: node `k` gets
`x = vals i j k`, the value `taichi::rand()` returned for it, and `y = 0`. -/
def test_block {F : Type} (fl : FloatOps F)
    (vals : Int → Fin Tile.size → Fin Block.size → F) (i : Int) (j : Fin Tile.size) :
    Block F :=
  ⟨fun k => ⟨vals i j k, fl.zero⟩⟩

/-- The tile the test builds for key `i`: cleared by `memset`, then a block
in every slot `j` with `12 <= j % 37 && j % 37 < 14`. -/
def test_tile {F : Type} (fl : FloatOps F)
    (vals : Int → Fin Tile.size → Fin Block.size → F) (i : Int) : Tile F :=
  ⟨fun j => if 12 ≤ j.val % 37 ∧ j.val % 37 < 14 then some (test_block fl vals i j) else none⟩

/-- The store after the tile under `key` is overwritten through the
reference `auto &tile = data[key]`. -/
def store_assign {F : Type} (data : Store F) (key : Int) (tile : Tile F) : Store F :=
  data.map fun e => if e.1 = key then (e.1, tile) else e

/-- One round of the test's loop `for (int i = 0; i < 8192; i++)`: nothing
when `i % 31 != 5`, otherwise `data[i]` is inserted and filled. -/
def test_init_step {F : Type} (fl : FloatOps F)
    (vals : Int → Fin Tile.size → Fin Block.size → F) (data : Store F) (i : Nat) :
    Store F :=
  if i % 31 ≠ 5 then data
  else store_assign (map_subscript data (i : Int)).2 (i : Int) (test_tile fl vals (i : Int))

/-- The store the `stencil1d` test builds, starting from the empty map. -/
def test_store {F : Type} (fl : FloatOps F)
    (vals : Int → Fin Tile.size → Fin Block.size → F) : Store F :=
  (List.range 8192).foldl (test_init_step fl vals) []

/-- The layout of the store the test builds: a well-formed map whose tiles
are exactly the keys `i` in `[0, 8192)` with `i % 31 = 5`, each with exactly
the block slots `j` with `j % 37` in `{12, 13}` allocated. -/
def TestLayout {F : Type} (data : Store F) : Prop :=
  data.WF ∧
  (∀ key : Int, key ∈ data.keys ↔ 0 ≤ key ∧ key < 8192 ∧ key % 31 = 5) ∧
  ∀ (k : Nat) (b : Fin Tile.size), k < data.length →
    ((block_at data k b).isSome ↔ b.val % 37 = 12 ∨ b.val % 37 = 13)

/-- The first `n` rounds of the test's loop in closed form: one entry for
every `i < n` with `i % 31 = 5`, in increasing order. -/
def test_store_upto {F : Type} (fl : FloatOps F)
    (vals : Int → Fin Tile.size → Fin Block.size → F) (n : Nat) : Store F :=
  ((List.range n).filter fun i => i % 31 = 5).map
    fun (i : Nat) => ((i : Int), test_tile fl vals (i : Int))

end Stencil1d

namespace Tlang

/-! ## The compiler configuration of `lang/util.h` -/

/-- The enumeration `enum class Arch { x86_64, gpu }`. -/
inductive Arch where
  | x86_64
  | gpu
  deriving DecidableEq

/-- The constant `default_simd_width_x86_64`. -/
def default_simd_width_x86_64 : Int := 8

/-- The function `default_simd_width`; its last branch (`TC_NOT_IMPLEMENTED`)
is taken by no enumerator of `Arch`. -/
def default_simd_width (arch : Arch) : Int :=
  match arch with
  | Arch.x86_64 => default_simd_width_x86_64
  | Arch.gpu => 32

/-- The record `struct CompileConfig`. -/
structure CompileConfig where
  arch : Arch
  simd_width : Int
  gcc_version : Int
  internal_optimization : Bool
  force_vectorized_global_load : Bool
  force_vectorized_global_store : Bool
  external_optimization_level : Int
  max_vector_width : Int
  print_ir : Int
  serial_schedule : Bool
  extra_flags : String

/-- The constructor `CompileConfig::CompileConfig()`; `osx` tells whether
`TC_PLATFORM_OSX` is defined. The string member is default-constructed. -/
def CompileConfig.ctor (osx : Bool) : CompileConfig where
  arch := Arch.x86_64
  simd_width := default_simd_width Arch.x86_64
  internal_optimization := true
  external_optimization_level := 3
  print_ir := 0
  max_vector_width := 8
  force_vectorized_global_load := false
  force_vectorized_global_store := false
  gcc_version := if osx then -1 else 5
  serial_schedule := false
  extra_flags := ""

/-- The text `fmt::format` puts for an `int` argument under a plain
replacement field: its decimal digits, after a minus sign when negative. -/
def fmt_int (z : Int) : String :=
  toString z

/-- Modelled from the spec: the macro `TC_ASSERT` (of `taichi/common/util.h`,
which is not among the sources). A failed assertion is fatal: the enclosing
function returns nothing. -/
def TC_ASSERT (c : Prop) [Decidable c] : Option Unit :=
  if c then some () else none

/-- The function `get_project_fn()`; `repo_dir` is what `get_repo_dir()`
returns. -/
def get_project_fn (repo_dir : String) : String :=
  repo_dir ++ "/projects/taichi_lang/"

/-- The method `CompileConfig::compiler_name()`. -/
def CompileConfig.compiler_name (c : CompileConfig) : String :=
  if c.gcc_version = -1 then "gcc"
  else if c.gcc_version = -2 then "clang-7"
  else "gcc-" ++ fmt_int c.gcc_version

/-- The method `CompileConfig::gcc_opt_flag()`: `none` when the assertion on
the level fails. -/
def CompileConfig.gcc_opt_flag (c : CompileConfig) : Option String :=
  (TC_ASSERT (0 ≤ c.external_optimization_level ∧ c.external_optimization_level < 5)).bind
    fun _ =>
      if c.external_optimization_level < 4 then
        some ("-O" ++ fmt_int c.external_optimization_level)
      else some "-Ofast"

/-- The command `fmt::format` builds in `compile_cmd` from the compiler name,
the input, the optimisation flag, the project directory, the output and the
extra flags, before any redirection is appended. -/
def CompileConfig.format_cmd (c : CompileConfig) (repo_dir input output opt : String) :
    String :=
  c.compiler_name ++ " " ++ input ++ " -std=c++14 -shared -fPIC " ++ opt
    ++ " -march=native -mfma -I " ++ get_project_fn repo_dir ++ "/headers "
    ++ "-ffp-contract=fast "
    ++ "-fopenmp -Wall -D_GLIBCXX_USE_CXX11_ABI=0 -DTLANG_CPU -o " ++ output ++ " -lstdc++ "
    ++ c.extra_flags

/-- The method `CompileConfig::compile_cmd(input, output, verbose = false)`. -/
def CompileConfig.compile_cmd (c : CompileConfig) (repo_dir input output : String)
    (verbose : Bool := false) : Option String :=
  c.gcc_opt_flag.bind fun opt =>
    let cmd := c.format_cmd repo_dir input output opt
    if !verbose then some (cmd ++ (" 2> " ++ input ++ ".log")) else some cmd

/-! ## Types, operators and typed constants of `lang/util.h` -/

/-- The enumeration `enum class DataType`. -/
inductive DataType where
  | f16
  | f32
  | f64
  | i8
  | i16
  | i32
  | i64
  | u8
  | u16
  | u32
  | u64
  | ptr
  | none
  | unknown
  deriving DecidableEq

/-- The enumeration `enum class BinaryType`. -/
inductive BinaryType where
  | mul
  | add
  | sub
  | div
  | mod
  | max
  | min
  | bit_and
  | bit_or
  | cmp_lt
  | cmp_le
  | cmp_gt
  | cmp_ge
  | cmp_eq
  | cmp_ne
  | undefined
  deriving DecidableEq

/-- The entries `binary_type_name` registers in its static map when the map
is empty, in the order of the `REGISTER_TYPE` lines. -/
def binary_type_registered : List (BinaryType × String) :=
  [(BinaryType.mul, "mul"), (BinaryType.add, "add"), (BinaryType.sub, "sub"),
   (BinaryType.div, "div"), (BinaryType.mod, "mod"), (BinaryType.max, "max"),
   (BinaryType.min, "min"), (BinaryType.bit_and, "bit_and"),
   (BinaryType.bit_or, "bit_or"), (BinaryType.cmp_lt, "cmp_lt"),
   (BinaryType.cmp_le, "cmp_le"), (BinaryType.cmp_gt, "cmp_gt"),
   (BinaryType.cmp_ge, "cmp_ge"), (BinaryType.cmp_ne, "cmp_ne"),
   (BinaryType.cmp_eq, "cmp_eq")]

/-- The function `binary_type_name(type)`, with its static map `type_names`
passed in and returned: the map is filled when empty, and the subscript
`type_names[type]` inserts an empty string for a key that is absent. -/
def binary_type_name (type_names : List (BinaryType × String)) (type : BinaryType) :
    String × List (BinaryType × String) :=
  let names := if type_names.isEmpty then binary_type_registered else type_names
  match names.lookup type with
  | some name => (name, names)
  | none => ("", names ++ [(type, "")])

/-- Modelled from the spec: the helper `starts_with` (of
`taichi/common/util.h`, which is not among the sources): whether the string
begins with the given text. -/
def starts_with (str start : String) : Bool :=
  start.data.isPrefixOf str.data

/-- The function `is_comparison(type)`, with the static map of
`binary_type_name` passed in and returned. -/
def is_comparison (type_names : List (BinaryType × String)) (type : BinaryType) :
    Bool × List (BinaryType × String) :=
  let r := binary_type_name type_names type
  (starts_with r.1 "cmp", r.2)

/-- The states the static map of `binary_type_name` can be in: empty before
the first call, then the registered names, with an empty name for
`BinaryType::undefined` once that has been looked up. -/
def TypeNamesState (type_names : List (BinaryType × String)) : Prop :=
  type_names = [] ∨ type_names = binary_type_registered ∨
  type_names = binary_type_registered ++ [(BinaryType.undefined, "")]

/-- Modelled from the spec: the macro `TC_NOT_IMPLEMENTED` (of
`taichi/common/util.h`, which is not among the sources). An unsupported type
is fatal: the enclosing function returns nothing. -/
def TC_NOT_IMPLEMENTED {α : Type} : Option α :=
  none

/-- The operations on `float32` that `TypedConstant` uses: the value with a
given 32-bit pattern and the pattern of a value, the comparison `==`, and the
text `fmt::format` puts for a value. -/
structure Float32Ops (F : Type) where
  of_bits : Nat → F
  to_bits : F → Nat
  eq : F → F → Bool
  fmt : F → String

/-- The class `TypedConstant`: the type tag `dt` and the eight bytes of the
anonymous union, read as `value_bits`. -/
structure TypedConstant where
  dt : DataType
  value_bits : Nat

/-- The union member `val_i32`: the low 32 bits, in two's complement. -/
def TypedConstant.val_i32 (c : TypedConstant) : Int :=
  if c.value_bits % 4294967296 < 2147483648 then (c.value_bits % 4294967296 : Nat)
  else ((c.value_bits % 4294967296 : Nat) : Int) - 4294967296

/-- The union member `val_f32`: the low 32 bits, as a `float32`. -/
def TypedConstant.val_f32 {F : Type} (fp : Float32Ops F) (c : TypedConstant) : F :=
  fp.of_bits (c.value_bits % 4294967296)

/-- The constructor `TypedConstant()`: the union is left as it is, `bits`. -/
def TypedConstant.ctor (bits : Nat) : TypedConstant :=
  ⟨DataType.unknown, bits⟩

/-- The constructor `TypedConstant(int32 x)`: the low 32 bits hold `x`, the
high 32 bits are left as they are, `high`. -/
def TypedConstant.of_i32 (x : Int) (high : Nat) : TypedConstant :=
  ⟨DataType.i32, (x % 4294967296).toNat + 4294967296 * high⟩

/-- The constructor `TypedConstant(float32 x)`: the low 32 bits hold `x`, the
high 32 bits are left as they are, `high`. -/
def TypedConstant.of_f32 {F : Type} (fp : Float32Ops F) (x : F) (high : Nat) :
    TypedConstant :=
  ⟨DataType.f32, fp.to_bits x % 4294967296 + 4294967296 * high⟩

/-- The method `TypedConstant::stringify()`. -/
def TypedConstant.stringify {F : Type} (fp : Float32Ops F) (c : TypedConstant) :
    Option String :=
  if c.dt = DataType.f32 then some (fp.fmt (c.val_f32 fp))
  else if c.dt = DataType.i32 then some (fmt_int c.val_i32)
  else TC_NOT_IMPLEMENTED

/-- The method `TypedConstant::equal_type_and_value(o)`. -/
def TypedConstant.equal_type_and_value {F : Type} (fp : Float32Ops F)
    (c o : TypedConstant) : Option Bool :=
  if c.dt ≠ o.dt then some false
  else if c.dt = DataType.f32 then some (fp.eq (c.val_f32 fp) (o.val_f32 fp))
  else if c.dt = DataType.i32 then some (decide (c.val_i32 = o.val_i32))
  else TC_NOT_IMPLEMENTED

/-- The bit patterns themselves in the place of `float32`, compared as
patterns and printed as numbers, for concrete examples. -/
def bitsOps : Float32Ops Nat :=
  ⟨fun b => b, fun x => x, fun a b => a == b, fun x => toString x⟩

/-! ## Reading a decimal rendering back -/

/-- The value of a decimal digit character. -/
def digit_value (c : Char) : Nat :=
  c.toNat - 48

/-- The number a sequence of decimal digits denotes, most significant digit
first, continuing from the value `acc` of the digits already read. -/
def decimal_value (l : List Char) (acc : Nat) : Nat :=
  l.foldl (fun a c => 10 * a + digit_value c) acc

/-- The integer a decimal rendering denotes: the digits, negated after a
leading minus sign. -/
def parse_int (l : List Char) : Int :=
  match l with
  | [] => 0
  | c :: ds => if c = '-' then -(decimal_value ds 0 : Int) else (decimal_value (c :: ds) 0 : Int)

end Tlang

namespace Stencil1d

/-! ## Address decomposition -/

/-- Decomposition of an in-range flat index: the three subscripts are within
the extents of their levels and recompose to the index. -/
theorem decompose_bounds (i : Int) (h0 : 0 ≤ i) :
    0 ≤ tile_index i ∧ 0 ≤ block_index i ∧ block_index i < 1024 ∧
    0 ≤ node_index i ∧ node_index i < 256 ∧
    tile_index i * dim0 + block_index i * dim1 + node_index i = i := by
  unfold tile_index block_index node_index
  have e1 : i.tdiv dim0 = i / 262144 := Int.tdiv_eq_ediv h0 (by decide)
  have e2 : i.tmod dim0 = i % 262144 := Int.tmod_eq_emod h0 (by decide)
  have e3 : i.tmod dim1 = i % 256 := Int.tmod_eq_emod h0 (by decide)
  have h2 : 0 ≤ i % 262144 := Int.emod_nonneg _ (by decide)
  have e4 : (i % 262144).tdiv dim1 = (i % 262144) / 256 := Int.tdiv_eq_ediv h2 (by decide)
  rw [e1, e2, e3, e4]
  simp only [dim0, dim1, Tile.size, Block.size]
  omega

/-- Within the extents of the layout the flat index is computed without
overflow. -/
theorem flat_index_eq (t b n : Int) (ht : 0 ≤ t ∧ t < 8192) (hb : 0 ≤ b ∧ b < 1024)
    (hn : 0 ≤ n ∧ n < 256) :
    flat_index t b n = some (t * dim0 + b * dim1 + n) := by
  have h1 : int_mul t dim0 = some (t * dim0) := by
    unfold int_mul int_ok
    rw [if_pos]
    simp only [dim0, dim1, Tile.size, Block.size, INT_MIN, INT_MAX]
    omega
  have h2 : int_mul b dim1 = some (b * dim1) := by
    unfold int_mul int_ok
    rw [if_pos]
    simp only [dim1, Block.size, INT_MIN, INT_MAX]
    omega
  have h3 : int_add (t * dim0) (b * dim1) = some (t * dim0 + b * dim1) := by
    unfold int_add int_ok
    rw [if_pos]
    simp only [dim0, dim1, Tile.size, Block.size, INT_MIN, INT_MAX]
    omega
  have h4 : int_add (t * dim0 + b * dim1) n = some (t * dim0 + b * dim1 + n) := by
    unfold int_add int_ok
    rw [if_pos]
    simp only [dim0, dim1, Tile.size, Block.size, INT_MIN, INT_MAX]
    omega
  simp only [flat_index, h1, h2, h3, h4, Option.some_bind]

/-- Decomposition of a flat index built from in-range subscripts gives the
subscripts back. -/
theorem decompose_flat (t b n : Int) (ht : 0 ≤ t) (hb : 0 ≤ b ∧ b < 1024)
    (hn : 0 ≤ n ∧ n < 256) :
    tile_index (t * dim0 + b * dim1 + n) = t ∧
    block_index (t * dim0 + b * dim1 + n) = b ∧
    node_index (t * dim0 + b * dim1 + n) = n := by
  have hi : 0 ≤ t * dim0 + b * dim1 + n := by
    have : 0 ≤ t * dim0 := Int.mul_nonneg ht (by decide)
    simp only [dim0, dim1, Tile.size, Block.size] at this ⊢
    omega
  obtain ⟨_, _, _, _, _, _⟩ := decompose_bounds _ hi
  generalize tile_index (t * dim0 + b * dim1 + n) = T at *
  generalize block_index (t * dim0 + b * dim1 + n) = B at *
  generalize node_index (t * dim0 + b * dim1 + n) = N at *
  simp only [dim0, dim1, Tile.size, Block.size] at *
  omega

/-- Claim C1 (address round-trip). For the layout
`hashed(8192).fixed(1024).pointer().fixed(256)`, every flat index `i` with
`0 ≤ i < 8192 * dim0` decomposes into a tile key below 8192, a block subscript
below 1024 and a node subscript below 256, and recomposing them with the `int`
expression of `copy_ref` gives `i` back; conversely every triple of
subscripts within the extents recomposes to an index that decomposes to
exactly that triple. -/
theorem address_round_trip :
    (∀ i : Int, 0 ≤ i → i < 8192 * dim0 →
      (0 ≤ tile_index i ∧ tile_index i < 8192) ∧
      (0 ≤ block_index i ∧ block_index i < 1024) ∧
      (0 ≤ node_index i ∧ node_index i < 256) ∧
      flat_index (tile_index i) (block_index i) (node_index i) = some i) ∧
    (∀ t b n : Nat, t < 8192 → b < 1024 → n < 256 →
      ∃ j : Int, flat_index t b n = some j ∧
        tile_index j = t ∧ block_index j = b ∧ node_index j = n) := by
  constructor
  · intro i h0 h1
    obtain ⟨a1, a2, a3, a4, a5, a6⟩ := decompose_bounds i h0
    have a7 : tile_index i < 8192 := by
      simp only [dim0, dim1, Tile.size, Block.size] at a6 h1
      omega
    refine ⟨⟨a1, a7⟩, ⟨a2, a3⟩, ⟨a4, a5⟩, ?_⟩
    rw [flat_index_eq _ _ _ ⟨a1, a7⟩ ⟨a2, a3⟩ ⟨a4, a5⟩, a6]
  · intro t b n ht hb hn
    refine ⟨(t : Int) * dim0 + (b : Int) * dim1 + (n : Int), ?_, ?_⟩
    · exact flat_index_eq _ _ _ (by omega) (by omega) (by omega)
    · exact decompose_flat _ _ _ (by omega) (by omega) (by omega)

/-- Claim C1 at the index 300000 and at the triple (8191, 1023, 255). -/
theorem address_round_trip_witness :
    flat_index (tile_index 300000) (block_index 300000) (node_index 300000)
      = some 300000 ∧
    ∃ j : Int, flat_index (8191 : Nat) (1023 : Nat) (255 : Nat) = some j ∧
      tile_index j = (8191 : Nat) ∧ block_index j = (1023 : Nat) ∧
      node_index j = (255 : Nat) :=
  ⟨(address_round_trip.1 300000 (by decide) (by decide)).2.2.2,
   address_round_trip.2 8191 1023 255 (by decide) (by decide) (by decide)⟩

/-! ## The safe read -/

/-- The inserting subscript does not insert when the key is present. -/
theorem map_subscript_of_find {F : Type} (data : Store F) (key : Int) (tile : Tile F)
    (h : find data key = some tile) : map_subscript data key = (tile, data) := by
  simp [map_subscript, h]

/-- A safe read of an absent tile returns zero and leaves the store as it is. -/
theorem safe_access_x_absent {F : Type} (fl : FloatOps F) (data : Store F) (i : Int)
    (h : find data (tile_index i) = none) :
    safe_access_x fl data i = some (fl.zero, data) := by
  simp [safe_access_x, h]

/-- A safe read of a present tile: a fault on a block or node subscript out of
bounds, zero on a null block, the node's `x` otherwise; the store is returned
as it was. -/
theorem safe_access_x_present {F : Type} (fl : FloatOps F) (data : Store F) (i : Int)
    (tile : Tile F) (h : find data (tile_index i) = some tile) :
    safe_access_x fl data i =
      match block_slot tile (block_index i) with
      | none => none
      | some none => some (fl.zero, data)
      | some (some block) =>
        (node_slot block (node_index i)).map fun nd => (nd.x, data) := by
  unfold safe_access_x
  simp only [h, Option.isNone_some, Bool.false_eq_true, if_false,
    map_subscript_of_find data _ tile h]
  cases hb : block_slot tile (block_index i) with
  | none => rfl
  | some o =>
    cases o with
    | none => rfl
    | some blk => simp only [hb]

/-- For a non-negative index the block and node subscripts are in bounds. -/
theorem slots_defined {F : Type} (tile : Tile F) (i : Int) (h0 : 0 ≤ i) :
    (∃ o, block_slot tile (block_index i) = some o) ∧
    ∀ block : Block F, ∃ nd, node_slot block (node_index i) = some nd := by
  obtain ⟨_, a2, a3, a4, a5, _⟩ := decompose_bounds i h0
  constructor
  · exact ⟨_, dif_pos ⟨a2, by simpa using a3⟩⟩
  · intro block
    exact ⟨_, dif_pos ⟨a4, by simpa using a5⟩⟩

/-- A safe read through a null block slot returns zero. -/
theorem safe_access_x_null_block {F : Type} (fl : FloatOps F) (data : Store F)
    (i : Int) (tile : Tile F) (ht : find data (tile_index i) = some tile)
    (hb : block_slot tile (block_index i) = some none) :
    safe_access_x fl data i = some (fl.zero, data) := by
  rw [safe_access_x_present fl data i tile ht, hb]

/-- Claim C2 (sparsity default). For every store and every index `i ≥ 0`: when
the store has no tile with key `i / dim0`, or that tile's block slot
`(i % dim0) / dim1` is null, `safe_access_x(i)` returns 0; otherwise it
returns the `x` of node `i % dim1` of that block. -/
theorem safe_access_x_sparsity_default {F : Type} (fl : FloatOps F) (data : Store F)
    (i : Int) (h0 : 0 ≤ i) :
    (find data (tile_index i) = none → safe_access_x fl data i = some (fl.zero, data)) ∧
    (∀ tile, find data (tile_index i) = some tile →
      block_slot tile (block_index i) = some none →
      safe_access_x fl data i = some (fl.zero, data)) ∧
    (∀ tile block, find data (tile_index i) = some tile →
      block_slot tile (block_index i) = some (some block) →
      ∃ nd, node_slot block (node_index i) = some nd ∧
        safe_access_x fl data i = some (nd.x, data)) := by
  refine ⟨safe_access_x_absent fl data i, ?_, ?_⟩
  · intro tile ht hb
    exact safe_access_x_null_block fl data i tile ht hb
  · intro tile block ht hb
    obtain ⟨nd, hnd⟩ := (slots_defined tile i h0).2 block
    refine ⟨nd, hnd, ?_⟩
    rw [safe_access_x_present fl data i tile ht, hb]
    simp only [hnd, Option.map_some']

/-- A call of `safe_access_x` that returns leaves the store as it was. -/
theorem safe_access_x_store {F : Type} (fl : FloatOps F) (data : Store F) (i : Int)
    (r : F × Store F) (hr : safe_access_x fl data i = some r) : r.2 = data := by
  cases ht : find data (tile_index i) with
  | none =>
    rw [safe_access_x_absent fl data i ht] at hr
    cases hr
    rfl
  | some tile =>
    rw [safe_access_x_present fl data i tile ht] at hr
    cases hb : block_slot tile (block_index i) with
    | none => rw [hb] at hr; cases hr
    | some o =>
      cases o with
      | none => rw [hb] at hr; cases hr; rfl
      | some blk =>
        rw [hb] at hr
        cases hn : node_slot blk (node_index i) with
        | none => simp [hn] at hr
        | some nd =>
          simp only [hn, Option.map_some', Option.some.injEq] at hr
          rw [← hr]

/-- A call of `safe_access_x` with a non-negative index returns. -/
theorem safe_access_x_defined {F : Type} (fl : FloatOps F) (data : Store F) (i : Int)
    (h0 : 0 ≤ i) : ∃ v, safe_access_x fl data i = some (v, data) := by
  cases ht : find data (tile_index i) with
  | none => exact ⟨_, safe_access_x_absent fl data i ht⟩
  | some tile =>
    obtain ⟨o, ho⟩ := (slots_defined tile i h0).1
    cases o with
    | none => exact ⟨_, safe_access_x_null_block fl data i tile ht ho⟩
    | some blk =>
      obtain ⟨nd, hnd⟩ := (slots_defined tile i h0).2 blk
      refine ⟨nd.x, ?_⟩
      rw [safe_access_x_present fl data i tile ht, ho]
      simp only [hnd, Option.map_some']

/-- Claim C3 (a safe read never allocates). Whatever the store and the index,
a call of `safe_access_x` that returns leaves the store exactly as it was (no
tile inserted, no block allocated); for an absent key it returns zero before
the inserting subscript `data[i / dim0]` is reached, and for a key that `find`
has found that subscript inserts nothing; and for every index `i ≥ 0` the call
does return. -/
theorem safe_access_x_never_allocates {F : Type} (fl : FloatOps F) (data : Store F)
    (i : Int) :
    (∀ r, safe_access_x fl data i = some r → r.2 = data) ∧
    (find data (tile_index i) = none → safe_access_x fl data i = some (fl.zero, data)) ∧
    (∀ tile, find data (tile_index i) = some tile →
      map_subscript data (tile_index i) = (tile, data)) ∧
    (0 ≤ i → ∃ v, safe_access_x fl data i = some (v, data)) :=
  ⟨safe_access_x_store fl data i, safe_access_x_absent fl data i,
    fun tile h => map_subscript_of_find data _ tile h, safe_access_x_defined fl data i⟩

/-- The value and the store returned by a safe read. -/
theorem safe_access_x_eq_read {F : Type} (fl : FloatOps F) (data : Store F) (i : Int) :
    safe_access_x fl data i = (safe_read fl data i).map fun v => (v, data) := by
  unfold safe_read
  cases h : safe_access_x fl data i with
  | none => rfl
  | some r =>
    have := safe_access_x_store fl data i r h
    cases r
    simp only [Option.map_some', Option.some.injEq, Prod.mk.injEq, true_and]
    exact this

/-- The value of a safe read, by cases on the tile and the block slot. -/
theorem safe_read_eq {F : Type} (fl : FloatOps F) (data : Store F) (i : Int) :
    safe_read fl data i =
      match find data (tile_index i) with
      | none => some fl.zero
      | some tile =>
        match block_slot tile (block_index i) with
        | none => none
        | some none => some fl.zero
        | some (some block) => (node_slot block (node_index i)).map Node.x := by
  unfold safe_read
  cases ht : find data (tile_index i) with
  | none => rw [safe_access_x_absent fl data i ht]; rfl
  | some tile =>
    rw [safe_access_x_present fl data i tile ht]
    cases hb : block_slot tile (block_index i) with
    | none => simp [hb]
    | some o =>
      cases o with
      | none => simp [hb]
      | some blk =>
        cases hn : node_slot blk (node_index i) with
        | none => simp [hb, hn]
        | some nd => simp [hb, hn]

/-! ## The map as a list of entries -/

/-- The key of the entry at a position. -/
theorem keys_getElem? {F : Type} (data : Store F) (k : Nat) :
    data.keys[k]? = data[k]?.map Prod.fst := by
  unfold Store.keys
  exact List.getElem?_map _ _ _

/-- A key that is not in the map is not found. -/
theorem find_eq_none_iff {F : Type} (data : Store F) (key : Int) :
    find data key = none ↔ key ∉ data.keys := by
  unfold find Store.keys
  induction data with
  | nil => simp
  | cons e es ih =>
    obtain ⟨a, t⟩ := e
    rw [List.lookup_cons]
    by_cases h : key = a
    · subst h
      simp
    · have : (key == a) = false := by simpa using h
      simp only [this, List.map_cons, List.mem_cons, not_or]
      rw [ih]
      exact ⟨fun h2 => ⟨h, h2⟩, fun h2 => h2.2⟩

/-- In a well-formed map the entry at a position is the one found under its
key. -/
theorem find_of_getElem? {F : Type} (data : Store F) (hwf : data.WF) (k : Nat)
    (key : Int) (tile : Tile F) (h : data[k]? = some (key, tile)) :
    find data key = some tile := by
  unfold find
  unfold Store.WF Store.keys at hwf
  induction data generalizing k with
  | nil => simp at h
  | cons e es ih =>
    obtain ⟨a, t⟩ := e
    rw [List.map_cons, List.nodup_cons] at hwf
    rw [List.lookup_cons]
    cases k with
    | zero =>
      simp only [List.getElem?_cons_zero, Option.some.injEq, Prod.mk.injEq] at h
      obtain ⟨rfl, rfl⟩ := h
      simp
    | succ k =>
      rw [List.getElem?_cons_succ] at h
      have hmem0 : (key, tile) ∈ es := List.mem_iff_getElem?.2 ⟨k, h⟩
      have hmem : key ∈ es.map Prod.fst := List.mem_map.2 ⟨(key, tile), hmem0, rfl⟩
      have hne : key ≠ a := fun e => hwf.1 (e ▸ hmem)
      have : (key == a) = false := by simpa using hne
      simp only [this]
      exact ih hwf.2 k h

/-- A tile that is found sits at some position of the map. -/
theorem getElem?_of_find {F : Type} (data : Store F) (key : Int) (tile : Tile F)
    (h : find data key = some tile) : ∃ k : Nat, data[k]? = some (key, tile) := by
  unfold find at h
  induction data with
  | nil => simp at h
  | cons e es ih =>
    obtain ⟨a, t⟩ := e
    rw [List.lookup_cons] at h
    by_cases hk : key = a
    · subst hk
      simp only [beq_self_eq_true, Option.some.injEq] at h
      subst h
      exact ⟨0, List.getElem?_cons_zero⟩
    · have : (key == a) = false := by simpa using hk
      simp only [this] at h
      obtain ⟨k, hk2⟩ := ih h
      refine ⟨k + 1, ?_⟩
      rw [List.getElem?_cons_succ]
      exact hk2

/-! ## Writing one node -/

/-- Replacing the tile of an entry keeps the keys. -/
theorem keys_set {F : Type} (data : Store F) (k : Nat) (it : Int × Tile F)
    (tile : Tile F) (h : data[k]? = some it) :
    Store.keys (data.set k (it.1, tile)) = data.keys := by
  unfold Store.keys
  rw [List.map_set]
  apply List.ext_getElem?
  intro j
  rw [List.getElem?_set]
  by_cases hj : k = j
  · subst hj
    have hlt : k < (List.map Prod.fst data).length := by
      rw [List.length_map]
      exact (List.getElem?_eq_some.1 h).1
    rw [if_pos rfl, if_pos hlt, List.getElem?_map, h]
    rfl
  · rw [if_neg hj]

/-- The blocks of a store after the tile of entry `k` is replaced. -/
theorem block_at_set {F : Type} (data : Store F) (k : Nat) (it : Int × Tile F)
    (tile : Tile F) (h : data[k]? = some it) (j : Nat) (b : Fin Tile.size) :
    block_at (data.set k (it.1, tile)) j b =
      if j = k then tile.blocks b else block_at data j b := by
  unfold block_at
  rw [List.getElem?_set]
  by_cases hj : j = k
  · subst hj
    have hlt : j < data.length := (List.getElem?_eq_some.1 h).1
    simp [hlt]
  · have : ¬ k = j := fun e => hj e.symm
    rw [if_neg this, if_neg hj]

/-- The result of the assignment `block->nodes[n].y = v` on an allocated
block. -/
theorem write_y_eq {F : Type} (data : Store F) (k : Nat) (b : Fin Tile.size)
    (n : Fin Block.size) (v : F) (blk : Block F) (h : block_at data k b = some blk) :
    ∃ d', write_y data k b n v = some d' ∧ d'.keys = data.keys ∧
      ∀ j c m, node_at d' j c m =
        if j = k ∧ c = b ∧ m = n then some ⟨(blk.nodes n).x, v⟩ else node_at data j c m := by
  unfold block_at at h
  cases hk : data[k]? with
  | none => simp [hk] at h
  | some it =>
    simp only [hk, Option.some_bind] at h
    refine ⟨data.set k (it.1, it.2.setBlock b (blk.setY n v)), ?_, keys_set data k it _ hk, ?_⟩
    · simp only [write_y, hk, h]
    · intro j c m
      unfold node_at
      rw [block_at_set data k it _ hk]
      by_cases hj : j = k
      · subst hj
        rw [if_pos rfl]
        by_cases hc : c = b
        · subst hc
          simp only [Tile.setBlock, if_true, Option.map_some', Block.setY, true_and]
          by_cases hm : m = n
          · subst hm
            simp
          · simp only [hm, if_false]
            simp only [block_at, hk, Option.some_bind, h, Option.map_some']
        · simp only [Tile.setBlock, hc, if_false, false_and, and_false]
          simp only [block_at, hk, Option.some_bind]
      · simp only [hj, if_false, false_and]

/-- A write to a block that is not allocated faults. -/
theorem write_y_none {F : Type} (data : Store F) (k : Nat) (b : Fin Tile.size)
    (n : Fin Block.size) (v : F) (h : block_at data k b = none) :
    write_y data k b n v = none := by
  unfold block_at at h
  unfold write_y
  cases hk : data[k]? with
  | none => rfl
  | some it =>
    simp only [hk, Option.some_bind] at h
    simp only [h]

/-! ## Stores that agree on keys, allocation and `x` -/

/-- A store agrees with itself. -/
theorem Agree.refl {F : Type} (d : Store F) : Agree d d :=
  ⟨rfl, fun _ _ _ => rfl⟩

/-- Agreeing stores have the same allocated blocks. -/
theorem Agree.block_isSome {F : Type} {d0 d : Store F} (h : Agree d0 d) (k : Nat)
    (b : Fin Tile.size) : (block_at d k b).isSome = (block_at d0 k b).isSome := by
  have := h.2 k b ⟨0, by decide⟩
  unfold node_at at this
  cases h1 : block_at d k b <;> cases h2 : block_at d0 k b <;> simp [h1, h2] at this ⊢

/-- Agreeing stores have the same `x` in corresponding blocks. -/
theorem Agree.x_eq {F : Type} {d0 d : Store F} (h : Agree d0 d) (k : Nat)
    (b : Fin Tile.size) (blk0 blk : Block F) (h0 : block_at d0 k b = some blk0)
    (h1 : block_at d k b = some blk) (n : Fin Block.size) :
    (blk.nodes n).x = (blk0.nodes n).x := by
  have := h.2 k b n
  simpa [node_at, h0, h1] using this

/-- A partially written store agrees with the initial one. -/
theorem Filled.agree {F : Type} {val : Nat → Fin Tile.size → Fin Block.size → Option F}
    {P : Nat → Fin Tile.size → Fin Block.size → Prop} {d0 d : Store F}
    (h : Filled val P d0 d) : Agree d0 d := by
  refine ⟨h.1, fun k b n => ?_⟩
  obtain ⟨h1, h2⟩ := h.2 k b n
  cases h0 : node_at d0 k b n with
  | none => rw [h1 h0]
  | some nd =>
    obtain ⟨h3, h4⟩ := h2 nd h0
    by_cases hp : P k b n
    · obtain ⟨v, _, hv⟩ := h3 hp
      rw [hv]
      rfl
    · rw [h4 hp]

/-- The set of written positions matters only at allocated nodes. -/
theorem Filled.congr {F : Type} {val : Nat → Fin Tile.size → Fin Block.size → Option F}
    {P Q : Nat → Fin Tile.size → Fin Block.size → Prop} {d0 d : Store F}
    (h : Filled val P d0 d)
    (hpq : ∀ k b n, (block_at d0 k b).isSome → (P k b n ↔ Q k b n)) :
    Filled val Q d0 d := by
  refine ⟨h.1, fun k b n => ?_⟩
  obtain ⟨h1, h2⟩ := h.2 k b n
  refine ⟨h1, fun nd h0 => ?_⟩
  have hb : (block_at d0 k b).isSome := by
    unfold node_at at h0
    cases hc : block_at d0 k b with
    | none => simp [hc] at h0
    | some _ => rfl
  obtain ⟨h3, h4⟩ := h2 nd h0
  exact ⟨fun hq => h3 ((hpq k b n hb).2 hq), fun hq => h4 fun hp => hq ((hpq k b n hb).1 hp)⟩

/-- Nothing is written at the start. -/
theorem Filled.init {F : Type} (val : Nat → Fin Tile.size → Fin Block.size → Option F)
    (d0 : Store F) : Filled val (fun _ _ _ => False) d0 d0 :=
  ⟨rfl, fun _ _ _ => ⟨fun h => h, fun _ h => ⟨fun hf => hf.elim, fun _ => h⟩⟩⟩

/-- One more position written. -/
theorem Filled.step {F : Type} {val : Nat → Fin Tile.size → Fin Block.size → Option F}
    {P : Nat → Fin Tile.size → Fin Block.size → Prop} {d0 d : Store F}
    (h : Filled val P d0 d) (k : Nat) (b : Fin Tile.size) (n : Fin Block.size)
    (hb : (block_at d0 k b).isSome) (v : F) (hv : val k b n = some v) :
    ∃ d', write_y d k b n v = some d' ∧
      Filled val (fun j c m => P j c m ∨ (j = k ∧ c = b ∧ m = n)) d0 d' := by
  have hb1 : (block_at d k b).isSome := by rw [h.agree.block_isSome]; exact hb
  obtain ⟨blk, hblk⟩ := Option.isSome_iff_exists.1 hb1
  obtain ⟨blk0, hblk0⟩ := Option.isSome_iff_exists.1 hb
  obtain ⟨d', hw, hkeys, hnode⟩ := write_y_eq d k b n v blk hblk
  refine ⟨d', hw, hkeys.trans h.1, fun j c m => ?_⟩
  obtain ⟨h1, h2⟩ := h.2 j c m
  rw [hnode]
  by_cases hpos : j = k ∧ c = b ∧ m = n
  · obtain ⟨rfl, rfl, rfl⟩ := hpos
    simp only [and_self, if_true, or_true, not_true_eq_false, forall_true_left,
      false_implies, and_true]
    refine ⟨fun h0 => ?_, fun nd h0 => ?_⟩
    · simp [node_at, hblk0] at h0
    · refine ⟨v, hv, ?_⟩
      have hx := h.agree.x_eq j c blk0 blk hblk0 hblk m
      simp only [node_at, hblk0, Option.map_some', Option.some.injEq] at h0
      rw [hx, ← h0]
  · rw [if_neg hpos]
    refine ⟨h1, fun nd h0 => ?_⟩
    obtain ⟨h3, h4⟩ := h2 nd h0
    exact ⟨fun hq => h3 (hq.resolve_right hpos), fun hq => h4 fun hp => hq (Or.inl hp)⟩

/-! ## The loop nest -/

/-- An invariant indexed by the set of elements already visited, carried
through a loop whose body may fault: when the loop returns the invariant
holds of all the elements, and when it faults some body did. -/
theorem foldlM_invariant {σ α : Type} (f : σ → α → Option σ)
    (I : (α → Prop) → σ → Prop) (bad : α → Prop)
    (hcongr : ∀ S T d, (∀ a, S a ↔ T a) → I S d → I T d) :
    ∀ l : List α,
      (∀ S d a, a ∈ l → I S d →
        (∀ d', f d a = some d' → I (fun x => S x ∨ x = a) d') ∧ (f d a = none → bad a)) →
      ∀ S d, I S d →
        (∀ d', l.foldlM f d = some d' → I (fun x => S x ∨ x ∈ l) d') ∧
        (l.foldlM f d = none → ∃ a ∈ l, bad a) := by
  intro l
  induction l with
  | nil =>
    intro _ S d hI
    refine ⟨fun d' h => ?_, fun h => ?_⟩
    · simp only [List.foldlM_nil] at h
      cases h
      exact hcongr S _ d (fun a => by simp) hI
    · simp only [List.foldlM_nil] at h
      cases h
  | cons a l ih =>
    intro hstep S d hI
    obtain ⟨h1, h2⟩ := hstep S d a (List.mem_cons_self a l) hI
    have ih2 := ih fun S d b hb => hstep S d b (List.mem_cons_of_mem a hb)
    rw [List.foldlM_cons]
    cases hf : f d a with
    | none =>
      refine ⟨fun d' h => ?_, fun _ => ⟨a, List.mem_cons_self a l, h2 hf⟩⟩
      simp at h
    | some d1 =>
      obtain ⟨h3, h4⟩ := ih2 _ d1 (h1 d1 hf)
      refine ⟨fun d' h => ?_, fun h => ?_⟩
      · have h5 : List.foldlM f d1 l = some d' := by simpa using h
        refine hcongr _ _ d' (fun x => ?_) (h3 d' h5)
        simp only [List.mem_cons]
        tauto
      · have h5 : List.foldlM f d1 l = none := by simpa using h
        obtain ⟨c, hc, hbad⟩ := h4 h5
        exact ⟨c, List.mem_cons_of_mem a hc, hbad⟩

/-- The inner loop over the nodes of one allocated block. -/
theorem node_loop_spec {F : Type}
    (body : Store F → Nat → Int → Fin Tile.size → Fin Block.size → Option (Store F))
    (val : Nat → Fin Tile.size → Fin Block.size → Option F) (d0 : Store F)
    (hbody : BodySpec body val d0) (k : Nat) (key : Int) (b : Fin Tile.size)
    (hkey : d0.keys[k]? = some key) (hb : (block_at d0 k b).isSome)
    (P : Nat → Fin Tile.size → Fin Block.size → Prop) (d : Store F)
    (hd : Filled val P d0 d) :
    (∀ d', node_loop (fun d n => body d k key b n) d = some d' →
      Filled val (fun j c m => P j c m ∨ (j = k ∧ c = b)) d0 d') ∧
    (node_loop (fun d n => body d k key b n) d = none → ∃ n, val k b n = none) := by
  have key_lemma := foldlM_invariant (fun d n => body d k key b n)
    (fun S d => Filled val (fun j c m => P j c m ∨ (j = k ∧ c = b ∧ S m)) d0 d)
    (fun n => val k b n = none)
    (fun S T d hST h => h.congr fun j c m _ => by rw [hST m])
    (List.finRange Block.size)
    (fun S d n _ hI => by
      have hbd := hbody d k key b n hI.agree hkey hb
      simp only [hbd]
      cases hv : val k b n with
      | none => exact ⟨fun d' h => by simp at h, fun _ => rfl⟩
      | some v =>
        obtain ⟨d1, hw, hF⟩ := hI.step k b n hb v hv
        simp only [Option.some_bind, hw]
        refine ⟨fun d' h => ?_, fun h => by simp at h⟩
        cases h
        exact hF.congr fun j c m _ => by
          constructor
          · rintro ((hp | ⟨h1, h2, h3⟩) | ⟨h1, h2, h3⟩)
            · exact Or.inl hp
            · exact Or.inr ⟨h1, h2, Or.inl h3⟩
            · exact Or.inr ⟨h1, h2, Or.inr h3⟩
          · rintro (hp | ⟨h1, h2, h3 | h3⟩)
            · exact Or.inl (Or.inl hp)
            · exact Or.inl (Or.inr ⟨h1, h2, h3⟩)
            · exact Or.inr ⟨h1, h2, h3⟩)
    (fun _ => False) d (hd.congr fun j c m _ => by simp)
  unfold node_loop
  refine ⟨fun d' h => ?_, fun h => ?_⟩
  · exact (key_lemma.1 d' h).congr fun j c m _ => by simp [List.mem_finRange]
  · obtain ⟨n, _, hn⟩ := key_lemma.2 h
    exact ⟨n, hn⟩

/-- The middle loop over the block slots of one entry. -/
theorem block_loop_spec {F : Type}
    (body : Store F → Nat → Int → Fin Tile.size → Fin Block.size → Option (Store F))
    (val : Nat → Fin Tile.size → Fin Block.size → Option F) (d0 : Store F)
    (hbody : BodySpec body val d0) (k : Nat) (key : Int)
    (hkey : d0.keys[k]? = some key)
    (P : Nat → Fin Tile.size → Fin Block.size → Prop) (d : Store F)
    (hd : Filled val P d0 d) :
    (∀ d', block_loop (fun d b n => body d k key b n) k d = some d' →
      Filled val (fun j c m => P j c m ∨ j = k) d0 d') ∧
    (block_loop (fun d b n => body d k key b n) k d = none →
      ∃ b n, (block_at d0 k b).isSome ∧ val k b n = none) := by
  have key_lemma := foldlM_invariant
    (fun d b =>
      match block_at d k b with
      | none => some d
      | some _ => node_loop (fun d n => body d k key b n) d)
    (fun S d => Filled val (fun j c m => P j c m ∨ (j = k ∧ S c)) d0 d)
    (fun b => ∃ n, (block_at d0 k b).isSome ∧ val k b n = none)
    (fun S T d hST h => h.congr fun j c m _ => by rw [hST c])
    (List.finRange Tile.size)
    (fun S d b _ hI => by
      have hsame := hI.agree.block_isSome k b
      beta_reduce
      cases hblk : block_at d k b with
      | none =>
        dsimp only
        refine ⟨fun d' h => ?_, fun h => by simp at h⟩
        cases h
        refine hI.congr fun j c m hc => ?_
        have hne : ¬ (j = k ∧ c = b) := by
          rintro ⟨rfl, rfl⟩
          rw [hblk] at hsame
          rw [← hsame] at hc
          simp at hc
        constructor
        · rintro (hp | ⟨h1, h2⟩)
          · exact Or.inl hp
          · exact Or.inr ⟨h1, Or.inl h2⟩
        · rintro (hp | ⟨h1, h2 | h2⟩)
          · exact Or.inl hp
          · exact Or.inr ⟨h1, h2⟩
          · exact (hne ⟨h1, h2⟩).elim
      | some blk =>
        dsimp only
        have hb0 : (block_at d0 k b).isSome := by rw [← hsame, hblk]; rfl
        obtain ⟨h1, h2⟩ := node_loop_spec body val d0 hbody k key b hkey hb0 _ d hI
        refine ⟨fun d' h => ?_, fun h => ?_⟩
        · refine (h1 d' h).congr fun j c m _ => ?_
          constructor
          · rintro ((hp | ⟨h3, h4⟩) | ⟨h3, h4⟩)
            · exact Or.inl hp
            · exact Or.inr ⟨h3, Or.inl h4⟩
            · exact Or.inr ⟨h3, Or.inr h4⟩
          · rintro (hp | ⟨h3, h4 | h4⟩)
            · exact Or.inl (Or.inl hp)
            · exact Or.inl (Or.inr ⟨h3, h4⟩)
            · exact Or.inr ⟨h3, h4⟩
        · obtain ⟨n, hn⟩ := h2 h
          exact ⟨n, hb0, hn⟩)
    (fun _ => False) d (hd.congr fun j c m _ => by simp)
  unfold block_loop
  refine ⟨fun d' h => ?_, fun h => ?_⟩
  · exact (key_lemma.1 d' h).congr fun j c m _ => by simp [List.mem_finRange]
  · obtain ⟨b, _, n, hb, hn⟩ := key_lemma.2 h
    exact ⟨b, n, hb, hn⟩

/-- The loop nest as a whole: when it returns, the keys, the allocated blocks
and every `x` are unchanged and every allocated node holds in `y` the value
the body writes there; it faults exactly when the body faults at some
allocated node. -/
theorem for_each_node_spec {F : Type}
    (body : Store F → Nat → Int → Fin Tile.size → Fin Block.size → Option (Store F))
    (val : Nat → Fin Tile.size → Fin Block.size → Option F) (d0 : Store F)
    (hbody : BodySpec body val d0) :
    (∀ d', for_each_node body d0 = some d' →
      Filled val (fun _ _ _ => True) d0 d') ∧
    (for_each_node body d0 = none →
      ∃ k b n, (block_at d0 k b).isSome ∧ val k b n = none) := by
  have key_lemma := foldlM_invariant
    (fun d k =>
      match d[k]? with
      | none => none
      | some it => block_loop (fun d b n => body d k it.1 b n) k d)
    (fun S d => Filled val (fun j _ _ => S j) d0 d)
    (fun k => ∃ b n, (block_at d0 k b).isSome ∧ val k b n = none)
    (fun S T d hST h => h.congr fun j c m _ => hST j)
    (List.range d0.length)
    (fun S d k hk hI => by
      have hlen : k < d.keys.length := by
        rw [hI.1]
        unfold Store.keys
        rw [List.length_map]
        exact List.mem_range.1 hk
      have hlt : k < d.length := by
        unfold Store.keys at hlen
        rwa [List.length_map] at hlen
      have hit : d[k]? = some d[k] := List.getElem?_eq_getElem hlt
      have hkey : d0.keys[k]? = some d[k].1 := by
        rw [← hI.1, keys_getElem?, hit]
        rfl
      simp only [hit]
      obtain ⟨h1, h2⟩ := block_loop_spec body val d0 hbody k d[k].1 hkey _ d hI
      exact ⟨fun d' h => (h1 d' h).congr fun j c m _ => Iff.rfl, h2⟩)
    (fun _ => False) d0 (Filled.init val d0)
  unfold for_each_node
  refine ⟨fun d' h => ?_, fun h => ?_⟩
  · refine (key_lemma.1 d' h).congr fun j c m hc => ?_
    have hj : j < d0.length := by
      unfold block_at at hc
      cases hg : d0[j]? with
      | none => simp [hg] at hc
      | some _ => exact (List.getElem?_eq_some.1 hg).1
    simp [List.mem_range, hj]
  · obtain ⟨k, _, hbad⟩ := key_lemma.2 h
    exact ⟨k, hbad⟩

/-- A loop nest whose body faults at an allocated node faults. -/
theorem for_each_node_eq_none {F : Type}
    (body : Store F → Nat → Int → Fin Tile.size → Fin Block.size → Option (Store F))
    (val : Nat → Fin Tile.size → Fin Block.size → Option F) (d0 : Store F)
    (hbody : BodySpec body val d0) (k : Nat) (b : Fin Tile.size) (n : Fin Block.size)
    (hb : (block_at d0 k b).isSome) (hv : val k b n = none) :
    for_each_node body d0 = none := by
  cases h : for_each_node body d0 with
  | none => rfl
  | some d' =>
    have hF := (for_each_node_spec body val d0 hbody).1 d' h
    obtain ⟨blk, hblk⟩ := Option.isSome_iff_exists.1 hb
    have hnode : node_at d0 k b n = some (blk.nodes n) := by simp [node_at, hblk]
    obtain ⟨v, hv2, _⟩ := ((hF.2 k b n).2 _ hnode).1 trivial
    rw [hv] at hv2
    cases hv2

/-- A loop nest whose body faults at no allocated node returns. -/
theorem for_each_node_isSome {F : Type}
    (body : Store F → Nat → Int → Fin Tile.size → Fin Block.size → Option (Store F))
    (val : Nat → Fin Tile.size → Fin Block.size → Option F) (d0 : Store F)
    (hbody : BodySpec body val d0)
    (hval : ∀ k b n, (block_at d0 k b).isSome → (val k b n).isSome) :
    ∃ d', for_each_node body d0 = some d' ∧ Filled val (fun _ _ _ => True) d0 d' := by
  cases h : for_each_node body d0 with
  | none =>
    obtain ⟨k, b, n, hb, hv⟩ := (for_each_node_spec body val d0 hbody).2 h
    have := hval k b n hb
    rw [hv] at this
    cases this
  | some d' => exact ⟨d', rfl, (for_each_node_spec body val d0 hbody).1 d' h⟩

/-! ## Safe reads during a kernel -/

/-- The block of an entry, given the entry. -/
theorem block_at_of_getElem? {F : Type} (data : Store F) (k : Nat) (it : Int × Tile F)
    (h : data[k]? = some it) (b : Fin Tile.size) : block_at data k b = it.2.blocks b := by
  simp [block_at, h]

/-- A safe read sees only keys, allocation and `x`: it returns the same value
on stores that agree. -/
theorem safe_read_agree {F : Type} (fl : FloatOps F) (d0 d : Store F) (hwf : d0.WF)
    (hag : Agree d0 d) (i : Int) : safe_read fl d i = safe_read fl d0 i := by
  rw [safe_read_eq, safe_read_eq]
  cases h0 : find d0 (tile_index i) with
  | none =>
    have : find d (tile_index i) = none := by
      rw [find_eq_none_iff, hag.1, ← find_eq_none_iff]
      exact h0
    rw [this]
  | some tile0 =>
    obtain ⟨k, hk0⟩ := getElem?_of_find d0 _ tile0 h0
    have hkey : d.keys[k]? = some (tile_index i) := by
      rw [hag.1, keys_getElem?, hk0]
      rfl
    rw [keys_getElem?] at hkey
    cases hk : d[k]? with
    | none => simp [hk] at hkey
    | some it =>
      obtain ⟨key, tile⟩ := it
      simp only [hk, Option.map_some', Option.some.injEq] at hkey
      subst hkey
      have hwf1 : d.WF := by
        unfold Store.WF
        rw [hag.1]
        exact hwf
      rw [find_of_getElem? d hwf1 k _ tile hk]
      dsimp only
      unfold block_slot
      by_cases hr : 0 ≤ block_index i ∧ block_index i < Tile.size
      · rw [dif_pos hr, dif_pos hr]
        have e1 := block_at_of_getElem? d k _ hk ⟨(block_index i).toNat, by omega⟩
        have e0 := block_at_of_getElem? d0 k _ hk0 ⟨(block_index i).toNat, by omega⟩
        have hs := hag.block_isSome k ⟨(block_index i).toNat, by omega⟩
        dsimp only at e1 e0
        rw [← e1, ← e0]
        cases hb1 : block_at d k ⟨(block_index i).toNat, by omega⟩ with
        | none =>
          cases hb0 : block_at d0 k ⟨(block_index i).toNat, by omega⟩ with
          | none => rfl
          | some blk0 => simp [hb1, hb0] at hs
        | some blk =>
          cases hb0 : block_at d0 k ⟨(block_index i).toNat, by omega⟩ with
          | none => simp [hb1, hb0] at hs
          | some blk0 =>
            dsimp only
            unfold node_slot
            by_cases hn : 0 ≤ node_index i ∧ node_index i < Block.size
            · rw [dif_pos hn, dif_pos hn]
              simp only [Option.map_some', Option.some.injEq]
              exact hag.x_eq k _ blk0 blk hb0 hb1 _
            · rw [dif_neg hn, dif_neg hn]
      · rw [dif_neg hr, dif_neg hr]

/-- A safe read during a kernel returns what it would have returned on the
initial store, and leaves the current store as it is. -/
theorem safe_access_x_agree {F : Type} (fl : FloatOps F) (d0 d : Store F) (hwf : d0.WF)
    (hag : Agree d0 d) (i : Int) :
    safe_access_x fl d i = (safe_read fl d0 i).map fun v => (v, d) := by
  rw [safe_access_x_eq_read, safe_read_agree fl d0 d hwf hag]

/-- A safe read at the flat index of a node of an allocated block returns that
node's `x`. -/
theorem safe_read_own {F : Type} (fl : FloatOps F) (data : Store F) (hwf : data.WF)
    (k : Nat) (key : Int) (hkey : data.keys[k]? = some key) (h0 : 0 ≤ key)
    (b : Fin Tile.size) (n : Fin Block.size) (blk : Block F)
    (hb : block_at data k b = some blk) :
    safe_read fl data (key * dim0 + (b.val : Int) * dim1 + (n.val : Int))
      = some (blk.nodes n).x := by
  have hbb : b.val < 1024 := b.isLt
  have hnn : n.val < 256 := n.isLt
  obtain ⟨e1, e2, e3⟩ := decompose_flat key b.val n.val h0
    ⟨by omega, by omega⟩ ⟨by omega, by omega⟩
  rw [keys_getElem?] at hkey
  cases hk : data[k]? with
  | none => simp [hk] at hkey
  | some it =>
    obtain ⟨key1, tile⟩ := it
    simp only [hk, Option.map_some', Option.some.injEq] at hkey
    subst hkey
    rw [safe_read_eq, e1, e2, e3, find_of_getElem? data hwf k _ tile hk]
    rw [block_at_of_getElem? data k _ hk] at hb
    have hs : block_slot tile (b.val : Int) = some (some blk) := by
      unfold block_slot
      rw [dif_pos ⟨by omega, by omega⟩]
      simp only [Int.toNat_ofNat, Fin.eta]
      exact congrArg some hb
    have hn : node_slot blk (n.val : Int) = some (blk.nodes n) := by
      unfold node_slot
      rw [dif_pos ⟨by omega, by omega⟩]
      simp only [Int.toNat_ofNat, Fin.eta]
    simp only [hs, hn, Option.map_some']

/-- A safe read at the flat index of the node `(t, b, n)`, for a tile key
`t ≥ 0`: the node's `x` when tile and block are allocated, zero otherwise. -/
theorem safe_read_flat {F : Type} (fl : FloatOps F) (data : Store F) (t : Int)
    (h0 : 0 ≤ t) (b : Fin Tile.size) (n : Fin Block.size) :
    safe_read fl data (t * dim0 + (b.val : Int) * dim1 + (n.val : Int))
      = some (tile_x_or_zero fl (find data t) b n) := by
  have hbb : b.val < 1024 := b.isLt
  have hnn : n.val < 256 := n.isLt
  obtain ⟨e1, e2, e3⟩ := decompose_flat t b.val n.val h0
    ⟨by omega, by omega⟩ ⟨by omega, by omega⟩
  rw [safe_read_eq, e1, e2, e3]
  cases ht : find data t with
  | none => rfl
  | some tile =>
    have hs : block_slot tile (b.val : Int) = some (tile.blocks b) := by
      unfold block_slot
      rw [dif_pos ⟨by omega, by omega⟩]
      simp only [Int.toNat_ofNat, Fin.eta]
    simp only [hs, tile_x_or_zero]
    cases hb : tile.blocks b with
    | none => rfl
    | some blk =>
      have hn : node_slot blk (n.val : Int) = some (blk.nodes n) := by
        unfold node_slot
        rw [dif_pos ⟨by omega, by omega⟩]
        simp only [Int.toNat_ofNat, Fin.eta]
      simp only [hn, Option.map_some', block_x_or_zero]

/-- The same, for the call itself. -/
theorem safe_access_x_flat {F : Type} (fl : FloatOps F) (data : Store F) (t : Int)
    (h0 : 0 ≤ t) (b : Fin Tile.size) (n : Fin Block.size) :
    safe_access_x fl data (t * dim0 + (b.val : Int) * dim1 + (n.val : Int))
      = some (tile_x_or_zero fl (find data t) b n, data) := by
  rw [safe_access_x_eq_read, safe_read_flat fl data t h0 b n]
  rfl

/-- A key under which a tile is found is a key of the map. -/
theorem mem_keys_of_find {F : Type} (data : Store F) (key : Int) (tile : Tile F)
    (h : find data key = some tile) : key ∈ data.keys := by
  by_contra hc
  rw [← find_eq_none_iff, h] at hc
  cases hc

/-- An `int` within range is the result of the operation. -/
theorem int_ok_eq (z : Int) (h : INT_MIN ≤ z ∧ z ≤ INT_MAX) : int_ok z = some z :=
  if_pos h

/-! ## What each kernel writes -/

/-- The value written matters only at allocated nodes. -/
theorem BodySpec.congr_val {F : Type}
    {body : Store F → Nat → Int → Fin Tile.size → Fin Block.size → Option (Store F)}
    {val val2 : Nat → Fin Tile.size → Fin Block.size → Option F} {d0 : Store F}
    (h : BodySpec body val d0)
    (hv : ∀ k b n, (block_at d0 k b).isSome → val k b n = val2 k b n) :
    BodySpec body val2 d0 := by
  intro d k key b n hag hkey hb
  rw [h d k key b n hag hkey hb, hv k b n hb]

/-- The body of `copy_ref` writes `copy_ref_val`. -/
theorem copy_ref_bodySpec {F : Type} (fl : FloatOps F) (d0 : Store F) (hwf : d0.WF) :
    BodySpec (copy_ref_body fl) (copy_ref_val fl d0) d0 := by
  intro d k key b n hag hkey _
  unfold copy_ref_body copy_ref_val
  rw [hkey, Option.some_bind]
  cases hi : flat_index key (b.val : Int) (n.val : Int) with
  | none => rfl
  | some i =>
    simp only [Option.some_bind]
    rw [safe_access_x_agree fl d0 d hwf hag]
    cases safe_read fl d0 i <;> rfl

/-- The body of `copy_optimized` writes `copy_optimized_val`. -/
theorem copy_optimized_bodySpec {F : Type} (d0 : Store F) :
    BodySpec copy_optimized_body (copy_optimized_val d0) d0 := by
  intro d k key b n hag _ hb
  unfold copy_optimized_body copy_optimized_val
  have hs := hag.block_isSome k b
  rw [hb] at hs
  obtain ⟨blk, hblk⟩ := Option.isSome_iff_exists.1 hs
  obtain ⟨blk0, hblk0⟩ := Option.isSome_iff_exists.1 hb
  have hx := hag.x_eq k b blk0 blk hblk0 hblk n
  simp only [hblk, node_at, hblk0, Option.some_bind, Option.map_some', hx]

/-- The body of `stencil_ref` writes `stencil_ref_val`. -/
theorem stencil_ref_bodySpec {F : Type} (fl : FloatOps F) (d0 : Store F) (hwf : d0.WF) :
    BodySpec (stencil_ref_body fl) (stencil_ref_val fl d0) d0 := by
  intro d k key b n hag hkey _
  unfold stencil_ref_body stencil_ref_val
  rw [hkey, Option.some_bind]
  cases hi : flat_index key (b.val : Int) (n.val : Int) with
  | none => rfl
  | some i =>
    simp only [Option.some_bind]
    cases int_sub i 1 with
    | none => rfl
    | some il =>
      simp only [Option.some_bind]
      rw [safe_access_x_agree fl d0 d hwf hag]
      cases safe_read fl d0 il with
      | none => rfl
      | some xl =>
        simp only [Option.map_some', Option.some_bind]
        rw [safe_access_x_agree fl d0 d hwf hag]
        cases safe_read fl d0 i with
        | none => rfl
        | some xc =>
          simp only [Option.map_some', Option.some_bind]
          cases int_add i 1 with
          | none => rfl
          | some ir =>
            simp only [Option.some_bind]
            rw [safe_access_x_agree fl d0 d hwf hag]
            cases safe_read fl d0 ir <;> rfl

/-- On a well-formed store with keys in `[0, 8192)` the safe read of
`copy_ref` at an allocated node is the node's own `x`. -/
theorem copy_ref_val_eq {F : Type} (fl : FloatOps F) (d0 : Store F) (hwf : d0.WF)
    (hkeys : d0.KeysInRange) (k : Nat) (b : Fin Tile.size) (n : Fin Block.size)
    (hb : (block_at d0 k b).isSome) :
    copy_ref_val fl d0 k b n = copy_optimized_val d0 k b n := by
  obtain ⟨blk, hblk⟩ := Option.isSome_iff_exists.1 hb
  unfold copy_ref_val copy_optimized_val
  cases hk : d0.keys[k]? with
  | none =>
    rw [keys_getElem?] at hk
    simp only [block_at] at hblk
    cases hg : d0[k]? with
    | none => simp [hg] at hblk
    | some it => simp [hg] at hk
  | some key =>
    have hr := hkeys key (List.mem_iff_getElem?.2 ⟨k, hk⟩)
    have hbb : b.val < 1024 := b.isLt
    have hnn : n.val < 256 := n.isLt
    rw [Option.some_bind, flat_index_eq key b.val n.val hr ⟨by omega, by omega⟩
      ⟨by omega, by omega⟩, Option.some_bind,
      safe_read_own fl d0 hwf k key hk hr.1 b n blk hblk]
    simp only [node_at, hblk, Option.map_some']

/-! ## Equality of stores -/

/-- Two stores with the same keys and the same nodes are equal. -/
theorem store_ext {F : Type} (d1 d2 : Store F) (hk : d1.keys = d2.keys)
    (hn : ∀ k b n, node_at d1 k b n = node_at d2 k b n) : d1 = d2 := by
  apply List.ext_getElem?
  intro k
  have hkk : d1[k]?.map Prod.fst = d2[k]?.map Prod.fst := by
    rw [← keys_getElem?, ← keys_getElem?, hk]
  cases h1 : d1[k]? with
  | none =>
    cases h2 : d2[k]? with
    | none => rfl
    | some it2 => simp [h1, h2] at hkk
  | some it1 =>
    cases h2 : d2[k]? with
    | none => simp [h1, h2] at hkk
    | some it2 =>
      obtain ⟨key1, ⟨blocks1⟩⟩ := it1
      obtain ⟨key2, ⟨blocks2⟩⟩ := it2
      simp only [h1, h2, Option.map_some', Option.some.injEq] at hkk
      subst hkk
      have hblocks : blocks1 = blocks2 := by
        funext b
        have e1 := block_at_of_getElem? d1 k _ h1 b
        have e2 := block_at_of_getElem? d2 k _ h2 b
        dsimp only at e1 e2
        have hnb := hn k b
        unfold node_at at hnb
        rw [e1, e2] at hnb
        cases hb1 : blocks1 b with
        | none =>
          cases hb2 : blocks2 b with
          | none => rfl
          | some b2 =>
            have := hnb ⟨0, by decide⟩
            simp [hb1, hb2] at this
        | some b1 =>
          cases hb2 : blocks2 b with
          | none =>
            have := hnb ⟨0, by decide⟩
            simp [hb1, hb2] at this
          | some b2 =>
            obtain ⟨nodes1⟩ := b1
            obtain ⟨nodes2⟩ := b2
            have : nodes1 = nodes2 := by
              funext n
              have := hnb n
              simpa [hb1, hb2] using this
            rw [this]
      rw [hblocks]

/-- A completed kernel has one possible result. -/
theorem Filled.unique {F : Type} {val : Nat → Fin Tile.size → Fin Block.size → Option F}
    {d0 d1 d2 : Store F} (h1 : Filled val (fun _ _ _ => True) d0 d1)
    (h2 : Filled val (fun _ _ _ => True) d0 d2) : d1 = d2 := by
  apply store_ext
  · rw [h1.1, h2.1]
  · intro k b n
    cases h0 : node_at d0 k b n with
    | none => rw [(h1.2 k b n).1 h0, (h2.2 k b n).1 h0]
    | some nd =>
      obtain ⟨v1, hv1, e1⟩ := ((h1.2 k b n).2 nd h0).1 trivial
      obtain ⟨v2, hv2, e2⟩ := ((h2.2 k b n).2 nd h0).1 trivial
      rw [hv1] at hv2
      cases hv2
      rw [e1, e2]

/-! ## The copy kernels -/

/-- The result of `copy_optimized`, which never faults. -/
theorem copy_optimized_spec {F : Type} (data : Store F) :
    ∃ d', copy_optimized data = some d' ∧
      Filled (copy_optimized_val data) (fun _ _ _ => True) data d' := by
  refine for_each_node_isSome _ _ data (copy_optimized_bodySpec data) fun k b n hb => ?_
  obtain ⟨blk, hblk⟩ := Option.isSome_iff_exists.1 hb
  simp [copy_optimized_val, node_at, hblk]

/-- The result of `copy_ref` on a well-formed store with keys in `[0, 8192)`. -/
theorem copy_ref_spec {F : Type} (fl : FloatOps F) (data : Store F) (hwf : data.WF)
    (hkeys : data.KeysInRange) :
    ∃ d', copy_ref fl data = some d' ∧
      Filled (copy_optimized_val data) (fun _ _ _ => True) data d' := by
  have hbody : BodySpec (copy_ref_body fl) (copy_optimized_val data) data :=
    (copy_ref_bodySpec fl data hwf).congr_val (copy_ref_val_eq fl data hwf hkeys)
  refine for_each_node_isSome _ _ data hbody fun k b n hb => ?_
  obtain ⟨blk, hblk⟩ := Option.isSome_iff_exists.1 hb
  simp [copy_optimized_val, node_at, hblk]

/-- Claim C4 (lowering/reference equivalence of the copy traversal). For every
store whose tile keys all lie in `[0, 8192)`, `copy_ref`, which recomputes the
flat index of each element and reads it back through `safe_access_x`, and
`copy_optimized`, which reads `nodes[n].x` directly, both return, with the
same final store. -/
theorem copy_ref_eq_copy_optimized {F : Type} (fl : FloatOps F) (data : Store F)
    (hwf : data.WF) (hkeys : data.KeysInRange) :
    copy_ref fl data = copy_optimized data ∧ ∃ d', copy_optimized data = some d' := by
  obtain ⟨d1, h1, hF1⟩ := copy_ref_spec fl data hwf hkeys
  obtain ⟨d2, h2, hF2⟩ := copy_optimized_spec data
  refine ⟨?_, d2, h2⟩
  rw [h1, h2, hF1.unique hF2]

/-- Claim C4 on the store with tile 5 and block 12. -/
theorem copy_ref_eq_copy_optimized_witness :
    (sample_store.WF ∧ sample_store.KeysInRange) ∧
    copy_ref ratOps sample_store = copy_optimized sample_store ∧
    ∃ d', copy_optimized sample_store = some d' :=
  ⟨⟨by simp [Store.WF, Store.keys, sample_store],
    by simp [Store.KeysInRange, Store.keys, sample_store]⟩,
   copy_ref_eq_copy_optimized ratOps sample_store
    (by simp [Store.WF, Store.keys, sample_store])
    (by simp [Store.KeysInRange, Store.keys, sample_store])⟩

/-- Claim C5 (copy postcondition). For every store whose tile keys lie in
`[0, 8192)`, `copy_ref` returns a store with the same tile keys and the same
allocated block slots, in which every node of every allocated block keeps its
`x` and has `y` equal to it; hence an address that was unallocated before the
call still reads as zero through `safe_access_x` after it. -/
theorem copy_ref_postcondition {F : Type} (fl : FloatOps F) (data : Store F)
    (hwf : data.WF) (hkeys : data.KeysInRange) :
    ∃ d', copy_ref fl data = some d' ∧
      d'.keys = data.keys ∧
      (∀ k b, (block_at d' k b).isSome = (block_at data k b).isSome) ∧
      (∀ k b n nd, node_at data k b n = some nd →
        node_at d' k b n = some ⟨nd.x, nd.x⟩) ∧
      (∀ i : Int, 0 ≤ i →
        (find data (tile_index i) = none ∨
          ∃ tile, find data (tile_index i) = some tile ∧
            block_slot tile (block_index i) = some none) →
        safe_access_x fl d' i = some (fl.zero, d')) := by
  obtain ⟨d', h1, hF⟩ := copy_ref_spec fl data hwf hkeys
  refine ⟨d', h1, hF.1, hF.agree.block_isSome, ?_, ?_⟩
  · intro k b n nd h0
    obtain ⟨v, hv, e⟩ := ((hF.2 k b n).2 nd h0).1 trivial
    simp only [copy_optimized_val, h0, Option.map_some', Option.some.injEq] at hv
    rw [e, hv]
  · intro i _ hun
    rw [safe_access_x_agree fl data d' hwf hF.agree, safe_read_eq]
    rcases hun with hnone | ⟨tile, ht, hb⟩
    · simp only [hnone, Option.map_some']
    · simp only [ht, hb, Option.map_some']

/-- Claim C5 on the store with tile 5 and block 12. -/
theorem copy_ref_postcondition_witness :
    (sample_store.WF ∧ sample_store.KeysInRange) ∧
    ∃ d', copy_ref ratOps sample_store = some d' ∧
      d'.keys = sample_store.keys ∧
      (∀ k b, (block_at d' k b).isSome = (block_at sample_store k b).isSome) ∧
      (∀ k b n nd, node_at sample_store k b n = some nd →
        node_at d' k b n = some ⟨nd.x, nd.x⟩) ∧
      (∀ i : Int, 0 ≤ i →
        (find sample_store (tile_index i) = none ∨
          ∃ tile, find sample_store (tile_index i) = some tile ∧
            block_slot tile (block_index i) = some none) →
        safe_access_x ratOps d' i = some (ratOps.zero, d')) :=
  ⟨⟨by simp [Store.WF, Store.keys, sample_store],
    by simp [Store.KeysInRange, Store.keys, sample_store]⟩,
   copy_ref_postcondition ratOps sample_store
    (by simp [Store.WF, Store.keys, sample_store])
    (by simp [Store.KeysInRange, Store.keys, sample_store])⟩

/-! ## Neighbour reads of the stencil -/

/-- The value `stencil_ref` writes at an interior node of an allocated block:
the stencil of the block's own three neighbouring `x` values. -/
theorem stencil_ref_val_interior {F : Type} (fl : FloatOps F) (data : Store F)
    (hwf : data.WF) (hkeys : data.KeysInRange) (k : Nat) (t : Int) (b : Fin Tile.size)
    (blk : Block F) (n : Fin Block.size) (hk : data.keys[k]? = some t)
    (hb : block_at data k b = some blk) (h1 : 1 ≤ n.val) (h2 : n.val ≤ 254) :
    int_sub (t * dim0 + b.val * dim1 + n.val) 1 = some (t * dim0 + b.val * dim1 + n.val - 1) ∧
    int_add (t * dim0 + b.val * dim1 + n.val) 1 = some (t * dim0 + b.val * dim1 + n.val + 1) ∧
    safe_read fl data (t * dim0 + b.val * dim1 + n.val - 1)
      = some (blk.nodes (left_of n)).x ∧
    safe_read fl data (t * dim0 + b.val * dim1 + n.val) = some (blk.nodes n).x ∧
    safe_read fl data (t * dim0 + b.val * dim1 + n.val + 1)
      = some (blk.nodes (right_of n h2)).x ∧
    stencil_ref_val fl data k b n =
      some (fl.mul fl.third (fl.add (fl.add (blk.nodes (left_of n)).x
        (blk.nodes n).x) (blk.nodes (right_of n h2)).x)) := by
  have hr := hkeys t (List.mem_iff_getElem?.2 ⟨k, hk⟩)
  have hbb : b.val < 1024 := b.isLt
  have hf := flat_index_eq t b.val n.val hr ⟨by omega, by omega⟩ ⟨by omega, by omega⟩
  have hs : int_sub (t * dim0 + b.val * dim1 + n.val) 1
      = some (t * dim0 + b.val * dim1 + n.val - 1) := by
    apply int_ok_eq
    simp only [dim0, dim1, Tile.size, Block.size, INT_MIN, INT_MAX]
    omega
  have ha : int_add (t * dim0 + b.val * dim1 + n.val) 1
      = some (t * dim0 + b.val * dim1 + n.val + 1) := by
    apply int_ok_eq
    simp only [dim0, dim1, Tile.size, Block.size, INT_MIN, INT_MAX]
    omega
  have el : t * dim0 + (b.val : Int) * dim1 + (n.val : Int) - 1
      = t * dim0 + (b.val : Int) * dim1 + ((left_of n).val : Int) := by
    simp only [left_of]
    omega
  have er : t * dim0 + (b.val : Int) * dim1 + (n.val : Int) + 1
      = t * dim0 + (b.val : Int) * dim1 + ((right_of n h2).val : Int) := by
    simp only [right_of]
    omega
  have rl : safe_read fl data (t * dim0 + b.val * dim1 + n.val - 1)
      = some (blk.nodes (left_of n)).x := by
    rw [el]
    exact safe_read_own fl data hwf k t hk hr.1 b _ blk hb
  have rc := safe_read_own fl data hwf k t hk hr.1 b n blk hb
  have rr : safe_read fl data (t * dim0 + b.val * dim1 + n.val + 1)
      = some (blk.nodes (right_of n h2)).x := by
    rw [er]
    exact safe_read_own fl data hwf k t hk hr.1 b _ blk hb
  refine ⟨hs, ha, rl, rc, rr, ?_⟩
  unfold stencil_ref_val
  simp only [hk, hf, hs, ha, rl, rc, rr, Option.some_bind]

/-- Claim C7 (interior elements may be addressed directly). For every store
with tile keys in `[0, 8192)`, every allocated block (tile `t`, slot `b`) and
every `n` with `1 ≤ n ≤ 254`, writing `i = t*dim0 + b*dim1 + n`: `i`, `i - 1`
and `i + 1` are computed without overflow; at any point of the run the safe
reads `safe_access_x(i - 1)`, `safe_access_x(i)` and `safe_access_x(i + 1)`
return `nodes[n - 1].x`, `nodes[n].x` and `nodes[n + 1].x` of that same block
and the body of `stencil_ref` stores their stencil into `nodes[n].y`; and
when `stencil_ref` returns, `nodes[n].y` holds that stencil and `nodes[n].x`
is unchanged. -/
theorem interior_reads_direct {F : Type} (fl : FloatOps F) (data : Store F)
    (hwf : data.WF) (hkeys : data.KeysInRange) (k : Nat) (t : Int) (b : Fin Tile.size)
    (blk : Block F) (n : Fin Block.size) (hk : data.keys[k]? = some t)
    (hb : block_at data k b = some blk) (h1 : 1 ≤ n.val) (h2 : n.val ≤ 254) :
    flat_index t b.val n.val = some (t * dim0 + b.val * dim1 + n.val) ∧
    int_sub (t * dim0 + b.val * dim1 + n.val) 1 = some (t * dim0 + b.val * dim1 + n.val - 1) ∧
    int_add (t * dim0 + b.val * dim1 + n.val) 1 = some (t * dim0 + b.val * dim1 + n.val + 1) ∧
    (∀ d, Agree data d →
      safe_access_x fl d (t * dim0 + b.val * dim1 + n.val - 1)
        = some ((blk.nodes (left_of n)).x, d) ∧
      safe_access_x fl d (t * dim0 + b.val * dim1 + n.val) = some ((blk.nodes n).x, d) ∧
      safe_access_x fl d (t * dim0 + b.val * dim1 + n.val + 1)
        = some ((blk.nodes (right_of n h2)).x, d) ∧
      ∃ d1, stencil_ref_body fl d k t b n = some d1 ∧
        node_at d1 k b n = some ⟨(blk.nodes n).x,
          fl.mul fl.third (fl.add (fl.add (blk.nodes (left_of n)).x
            (blk.nodes n).x) (blk.nodes (right_of n h2)).x)⟩) ∧
    (∀ d', stencil_ref fl data = some d' →
      node_at d' k b n = some ⟨(blk.nodes n).x,
        fl.mul fl.third (fl.add (fl.add (blk.nodes (left_of n)).x
          (blk.nodes n).x) (blk.nodes (right_of n h2)).x)⟩) := by
  have hr := hkeys t (List.mem_iff_getElem?.2 ⟨k, hk⟩)
  have hbb : b.val < 1024 := b.isLt
  have hf := flat_index_eq t b.val n.val hr ⟨by omega, by omega⟩ ⟨by omega, by omega⟩
  obtain ⟨hs, ha, rl, rc, rr, hv⟩ :=
    stencil_ref_val_interior fl data hwf hkeys k t b blk n hk hb h1 h2
  have hb0 : (block_at data k b).isSome := by rw [hb]; rfl
  refine ⟨hf, hs, ha, fun d hag => ⟨?_, ?_, ?_, ?_⟩, fun d' h => ?_⟩
  · rw [safe_access_x_agree fl data d hwf hag, rl]
    rfl
  · rw [safe_access_x_agree fl data d hwf hag, rc]
    rfl
  · rw [safe_access_x_agree fl data d hwf hag, rr]
    rfl
  · rw [stencil_ref_bodySpec fl data hwf d k t b n hag hk hb0, hv, Option.some_bind]
    have hs1 := hag.block_isSome k b
    rw [hb0] at hs1
    obtain ⟨blk1, hblk1⟩ := Option.isSome_iff_exists.1 hs1
    obtain ⟨d1, hw, _, hnode⟩ := write_y_eq d k b n _ blk1 hblk1
    refine ⟨d1, hw, ?_⟩
    rw [hnode, if_pos ⟨rfl, rfl, rfl⟩, hag.x_eq k b blk blk1 hb hblk1 n]
  · have hF := (for_each_node_spec _ _ data (stencil_ref_bodySpec fl data hwf)).1 d' h
    have hnode : node_at data k b n = some (blk.nodes n) := by simp [node_at, hb]
    obtain ⟨v, hv2, e⟩ := ((hF.2 k b n).2 _ hnode).1 trivial
    rw [hv] at hv2
    cases hv2
    exact e


/-- Claim C8 (boundary elements read the neighbour across the storage-node
boundary, or zero). For every store with tile keys in `[0, 8192)` and every
allocated block (tile `t`, slot `b`): at `n = 255` the index `i + 1` is
computed without overflow and `safe_access_x(i + 1)` is `nodes[0].x` of slot
`b + 1` of tile `t` when `b < 1023`, and of slot 0 of tile `t + 1` when
`b = 1023` and `t < 8191`, if that tile and block are allocated and 0
otherwise; at `n = 0` the index `i - 1` is computed without overflow and
`safe_access_x(i - 1)` is `nodes[255].x` of slot `b - 1` of tile `t` when
`b > 0`, and of slot 1023 of tile `t - 1` when `b = 0` and `t > 0`, if
allocated and 0 otherwise. -/
theorem boundary_neighbour_reads {F : Type} (fl : FloatOps F) (data : Store F)
    (hkeys : data.KeysInRange) (t : Int) (tile : Tile F) (b : Fin Tile.size)
    (blk : Block F) (ht : find data t = some tile) (_hb : tile.blocks b = some blk) :
    (∀ c : Fin Tile.size, c.val = b.val + 1 →
      flat_index t b.val 255 = some (t * dim0 + b.val * dim1 + 255) ∧
      int_add (t * dim0 + b.val * dim1 + 255) 1 = some (t * dim0 + b.val * dim1 + 255 + 1) ∧
      safe_access_x fl data (t * dim0 + b.val * dim1 + 255 + 1)
        = some (block_x_or_zero fl (tile.blocks c) ⟨0, by decide⟩, data)) ∧
    (b.val = 1023 → t < 8191 →
      flat_index t b.val 255 = some (t * dim0 + b.val * dim1 + 255) ∧
      int_add (t * dim0 + b.val * dim1 + 255) 1 = some (t * dim0 + b.val * dim1 + 255 + 1) ∧
      safe_access_x fl data (t * dim0 + b.val * dim1 + 255 + 1)
        = some (tile_x_or_zero fl (find data (t + 1)) ⟨0, by decide⟩ ⟨0, by decide⟩, data)) ∧
    (∀ c : Fin Tile.size, c.val + 1 = b.val →
      flat_index t b.val 0 = some (t * dim0 + b.val * dim1 + 0) ∧
      int_sub (t * dim0 + b.val * dim1 + 0) 1 = some (t * dim0 + b.val * dim1 + 0 - 1) ∧
      safe_access_x fl data (t * dim0 + b.val * dim1 + 0 - 1)
        = some (block_x_or_zero fl (tile.blocks c) ⟨255, by decide⟩, data)) ∧
    (b.val = 0 → 0 < t →
      flat_index t b.val 0 = some (t * dim0 + b.val * dim1 + 0) ∧
      int_sub (t * dim0 + b.val * dim1 + 0) 1 = some (t * dim0 + b.val * dim1 + 0 - 1) ∧
      safe_access_x fl data (t * dim0 + b.val * dim1 + 0 - 1)
        = some (tile_x_or_zero fl (find data (t - 1)) ⟨1023, by decide⟩ ⟨255, by decide⟩,
            data)) := by
  have hr := hkeys t (mem_keys_of_find data t tile ht)
  have hbb : b.val < 1024 := b.isLt
  have hf255 := flat_index_eq t b.val 255 hr ⟨by omega, by omega⟩ ⟨by decide, by decide⟩
  have hf0 := flat_index_eq t b.val 0 hr ⟨by omega, by omega⟩ ⟨by decide, by decide⟩
  refine ⟨fun c hc => ⟨hf255, ?_, ?_⟩, fun hb1 ht1 => ⟨hf255, ?_, ?_⟩,
    fun c hc => ⟨hf0, ?_, ?_⟩, fun hb0 ht0 => ⟨hf0, ?_, ?_⟩⟩
  · have hcc : c.val < 1024 := c.isLt
    apply int_ok_eq
    simp only [dim0, dim1, Tile.size, Block.size, INT_MIN, INT_MAX]
    omega
  · have e : t * dim0 + (b.val : Int) * dim1 + 255 + 1
        = t * dim0 + (c.val : Int) * dim1 + ((⟨0, by decide⟩ : Fin Block.size).val : Int) := by
      simp only [dim0, dim1, Tile.size, Block.size, hc]
      push_cast
      omega
    rw [e, safe_access_x_flat fl data t hr.1 c _, ht]
    rfl
  · apply int_ok_eq
    simp only [dim0, dim1, Tile.size, Block.size, INT_MIN, INT_MAX]
    omega
  · have e : t * dim0 + (b.val : Int) * dim1 + 255 + 1
        = (t + 1) * dim0 + ((⟨0, by decide⟩ : Fin Tile.size).val : Int) * dim1
          + ((⟨0, by decide⟩ : Fin Block.size).val : Int) := by
      simp only [dim0, dim1, Tile.size, Block.size, hb1]
      push_cast
      omega
    rw [e, safe_access_x_flat fl data (t + 1) (by omega) _ _]
  · apply int_ok_eq
    simp only [dim0, dim1, Tile.size, Block.size, INT_MIN, INT_MAX]
    omega
  · have e : t * dim0 + (b.val : Int) * dim1 + 0 - 1
        = t * dim0 + (c.val : Int) * dim1 + ((⟨255, by decide⟩ : Fin Block.size).val : Int) := by
      simp only [dim0, dim1, Tile.size, Block.size, ← hc]
      push_cast
      omega
    rw [e, safe_access_x_flat fl data t hr.1 c _, ht]
    rfl
  · apply int_ok_eq
    simp only [dim0, dim1, Tile.size, Block.size, INT_MIN, INT_MAX]
    omega
  · have e : t * dim0 + (b.val : Int) * dim1 + 0 - 1
        = (t - 1) * dim0 + ((⟨1023, by decide⟩ : Fin Tile.size).val : Int) * dim1
          + ((⟨255, by decide⟩ : Fin Block.size).val : Int) := by
      simp only [dim0, dim1, Tile.size, Block.size, hb0]
      push_cast
      omega
    rw [e, safe_access_x_flat fl data (t - 1) (by omega) _ _]

/-- The value of a safe read with a non-negative index is defined. -/
theorem safe_read_defined {F : Type} (fl : FloatOps F) (data : Store F) (i : Int)
    (h0 : 0 ≤ i) : ∃ v, safe_read fl data i = some v := by
  obtain ⟨v, hv⟩ := safe_access_x_defined fl data i h0
  exact ⟨v, by rw [safe_read, hv]; rfl⟩

/-- Away from the two corners of the index space the three reads of
`stencil_ref` are defined: at an allocated node other than node 0 of slot 0 of
tile 0 and node 255 of slot 1023 of tile 8191, the value to write exists. -/
theorem stencil_ref_val_defined {F : Type} (fl : FloatOps F) (data : Store F)
    (hkeys : data.KeysInRange) (k : Nat) (t : Int) (b : Fin Tile.size)
    (n : Fin Block.size) (hk : data.keys[k]? = some t)
    (hlo : ¬ (t = 0 ∧ b.val = 0 ∧ n.val = 0))
    (hhi : ¬ (t = 8191 ∧ b.val = 1023 ∧ n.val = 255)) :
    ∃ v, stencil_ref_val fl data k b n = some v := by
  have hr := hkeys t (List.mem_iff_getElem?.2 ⟨k, hk⟩)
  have hbb : b.val < 1024 := b.isLt
  have hnn : n.val < 256 := n.isLt
  have hf := flat_index_eq t b.val n.val hr ⟨by omega, by omega⟩ ⟨by omega, by omega⟩
  have hs : int_sub (t * dim0 + b.val * dim1 + n.val) 1
      = some (t * dim0 + b.val * dim1 + n.val - 1) := by
    apply int_ok_eq
    simp only [dim0, dim1, Tile.size, Block.size, INT_MIN, INT_MAX]
    omega
  have ha : int_add (t * dim0 + b.val * dim1 + n.val) 1
      = some (t * dim0 + b.val * dim1 + n.val + 1) := by
    apply int_ok_eq
    simp only [dim0, dim1, Tile.size, Block.size, INT_MIN, INT_MAX]
    omega
  obtain ⟨xl, hl⟩ := safe_read_defined fl data (t * dim0 + b.val * dim1 + n.val - 1) (by
    simp only [dim0, dim1, Tile.size, Block.size]
    omega)
  obtain ⟨xc, hc⟩ := safe_read_defined fl data (t * dim0 + b.val * dim1 + n.val) (by
    simp only [dim0, dim1, Tile.size, Block.size]
    omega)
  obtain ⟨xr, hr2⟩ := safe_read_defined fl data (t * dim0 + b.val * dim1 + n.val + 1) (by
    simp only [dim0, dim1, Tile.size, Block.size]
    omega)
  refine ⟨fl.mul fl.third (fl.add (fl.add xl xc) xr), ?_⟩
  unfold stencil_ref_val
  simp only [hk, hf, hs, ha, hl, hc, hr2, Option.some_bind]

/-- The kernel `stencil_ref` returns on every well-formed store with keys in
`[0, 8192)` in which slot 0 of tile 0 and slot 1023 of tile 8191 are not
allocated, and then every allocated node holds in `y` the value of
`stencil_ref_val` on the initial store. -/
theorem stencil_ref_spec {F : Type} (fl : FloatOps F) (data : Store F) (hwf : data.WF)
    (hkeys : data.KeysInRange)
    (hlo : ∀ k, data.keys[k]? = some 0 → block_at data k ⟨0, by decide⟩ = none)
    (hhi : ∀ k, data.keys[k]? = some 8191 → block_at data k ⟨1023, by decide⟩ = none) :
    ∃ d', stencil_ref fl data = some d' ∧
      Filled (stencil_ref_val fl data) (fun _ _ _ => True) data d' := by
  refine for_each_node_isSome _ _ data (stencil_ref_bodySpec fl data hwf) fun k b n hb => ?_
  cases hk : data.keys[k]? with
  | none =>
    rw [keys_getElem?] at hk
    unfold block_at at hb
    cases hg : data[k]? with
    | none => simp [hg] at hb
    | some it => simp [hg] at hk
  | some t =>
    have h1 : ¬ (t = 0 ∧ b.val = 0 ∧ n.val = 0) := by
      rintro ⟨rfl, hb0, _⟩
      have hbe : b = ⟨0, by decide⟩ := Fin.ext hb0
      rw [hbe, hlo k hk] at hb
      cases hb
    have h2 : ¬ (t = 8191 ∧ b.val = 1023 ∧ n.val = 255) := by
      rintro ⟨rfl, hb0, _⟩
      have hbe : b = ⟨1023, by decide⟩ := Fin.ext hb0
      rw [hbe, hhi k hk] at hb
      cases hb
    obtain ⟨v, hv⟩ := stencil_ref_val_defined fl data hkeys k t b n hk h1 h2
    rw [hv]
    rfl

/-- Claim C2 on the store with tile 5 and block 12, at the flat index of its
node 7. -/
theorem safe_access_x_sparsity_default_witness :
    (0 : Int) ≤ 1313799 ∧
    ∃ nd, node_slot ramp_block (node_index 1313799) = some nd ∧
      safe_access_x ratOps sample_store 1313799 = some (nd.x, sample_store) :=
  ⟨by decide,
   (safe_access_x_sparsity_default ratOps sample_store 1313799 (by decide)).2.2
    _ ramp_block rfl rfl⟩

/-- Claim C3 on the store with tile 5 and block 12, at the flat index of its
node 7. -/
theorem safe_access_x_never_allocates_witness :
    (0 : Int) ≤ 1313799 ∧
    ∃ v, safe_access_x ratOps sample_store 1313799 = some (v, sample_store) :=
  ⟨by decide,
   (safe_access_x_never_allocates ratOps sample_store 1313799).2.2.2 (by decide)⟩

/-- Claim C7 on the store with tile 5 and block 12, at node 7: `stencil_ref`
returns, and `nodes[7].y` holds a third of `6 + 7 + 8`. -/
theorem interior_reads_direct_witness :
    (sample_store.WF ∧ sample_store.KeysInRange) ∧
    ∃ d', stencil_ref ratOps sample_store = some d' ∧
      node_at d' 0 ⟨12, by decide⟩ ⟨7, by decide⟩ = some ⟨7, (1 / 3) * (6 + 7 + 8)⟩ := by
  have hwf : sample_store.WF := by simp [Store.WF, Store.keys, sample_store]
  have hkeys : sample_store.KeysInRange := by
    simp [Store.KeysInRange, Store.keys, sample_store]
  have hlo : ∀ k, sample_store.keys[k]? = some 0 →
      block_at sample_store k ⟨0, by decide⟩ = none := by
    intro k hk
    cases k <;> simp [Store.keys, sample_store] at hk
  have hhi : ∀ k, sample_store.keys[k]? = some 8191 →
      block_at sample_store k ⟨1023, by decide⟩ = none := by
    intro k hk
    cases k <;> simp [Store.keys, sample_store] at hk
  obtain ⟨d', h, _⟩ := stencil_ref_spec ratOps sample_store hwf hkeys hlo hhi
  refine ⟨⟨hwf, hkeys⟩, d', h, ?_⟩
  have := (interior_reads_direct ratOps sample_store hwf hkeys
    0 5 ⟨12, by decide⟩ ramp_block ⟨7, by decide⟩ rfl rfl (by decide) (by decide)).2.2.2.2 d' h
  rw [this]
  simp [ramp_block, ratOps, left_of, right_of]

/-- Claim C8 on the store with tile 5 and block 12: the right neighbour of
node 255 lies in the unallocated slot 13 and reads as zero. -/
theorem boundary_neighbour_reads_witness :
    sample_store.KeysInRange ∧
    safe_access_x ratOps sample_store (5 * dim0 + ((12 : Nat) : Int) * dim1 + 255 + 1)
      = some (ratOps.zero, sample_store) :=
  ⟨by simp [Store.KeysInRange, Store.keys, sample_store],
   ((boundary_neighbour_reads ratOps sample_store
      (by simp [Store.KeysInRange, Store.keys, sample_store])
      5 _ ⟨12, by decide⟩ ramp_block rfl rfl).1 ⟨13, by decide⟩ rfl).2.2⟩

/-- Claim C6, the code at two well-formed stores with keys in `[0, 8192)`.
With node 0 of slot 0 of tile 0 allocated, the left neighbour read of
`stencil_ref` is `safe_access_x(-1)`, whose node subscript `-1 % 256` is `-1`:
the read is out of bounds and the kernel faults. With node 255 of slot 1023 of
tile 8191 allocated, the flat index is `INT_MAX` and computing `i + 1`
overflows: the kernel faults. -/
theorem stencil_ref_faults_at_corners :
    (origin_store.WF ∧ origin_store.KeysInRange) ∧
    flat_index 0 0 0 = some 0 ∧ int_sub 0 1 = some (-1) ∧ node_index (-1) = -1 ∧
    safe_access_x ratOps origin_store (-1) = none ∧
    stencil_ref ratOps origin_store = none ∧
    (corner_store.WF ∧ corner_store.KeysInRange) ∧
    flat_index 8191 1023 255 = some INT_MAX ∧ int_add INT_MAX 1 = none ∧
    stencil_ref ratOps corner_store = none := by
  have hwf0 : origin_store.WF := by simp [Store.WF, Store.keys, origin_store]
  have hwf1 : corner_store.WF := by simp [Store.WF, Store.keys, corner_store]
  refine ⟨⟨hwf0, by simp [Store.KeysInRange, Store.keys, origin_store]⟩, by decide,
    by decide, by decide, rfl, ?_,
    ⟨hwf1, by simp [Store.KeysInRange, Store.keys, corner_store]⟩, by decide, by decide, ?_⟩
  · refine for_each_node_eq_none _ _ origin_store (stencil_ref_bodySpec ratOps _ hwf0)
      0 ⟨0, by decide⟩ ⟨0, by decide⟩ rfl ?_
    have h1 : origin_store.keys[0]? = some 0 := rfl
    have h2 : flat_index 0 (0 : Nat) (0 : Nat) = some 0 := by decide
    have h3 : int_sub 0 1 = some (-1) := by decide
    have h4 : safe_read ratOps origin_store (-1) = none := by
      unfold safe_read
      rw [show safe_access_x ratOps origin_store (-1) = none from rfl]
      rfl
    simp only [stencil_ref_val, h1, h2, h3, h4, Option.some_bind, Option.none_bind]
  · refine for_each_node_eq_none _ _ corner_store (stencil_ref_bodySpec ratOps _ hwf1)
      0 ⟨1023, by decide⟩ ⟨255, by decide⟩ rfl ?_
    have h1 : corner_store.keys[0]? = some 8191 := rfl
    have h2 : flat_index 8191 (1023 : Nat) (255 : Nat) = some INT_MAX := by decide
    have h3 : int_add INT_MAX 1 = none := by decide
    simp only [stencil_ref_val, h1, h2, h3, Option.some_bind]
    cases int_sub INT_MAX 1 with
    | none => rfl
    | some il =>
      simp only [Option.some_bind]
      cases safe_read ratOps corner_store il with
      | none => rfl
      | some xl =>
        simp only [Option.some_bind]
        cases safe_read ratOps corner_store INT_MAX <;> rfl

/-! ## The range of the flat index -/

/-- Claim C18 (the flat index of the test layout exactly fits a 32-bit signed
int). For every tile key `t` in `[0, 8192)`, block slot `b` in `[0, 1024)` and
node `n` in `[0, 256)`, the products `t * dim0` and `b * dim1` and the two
sums of `t*dim0 + b*dim1 + n` are computed in `int` arithmetic without
overflow and the value lies in `[0, 2^31 - 1]`; the maximum `2^31 - 1` is
attained at `(8191, 1023, 255)`; and the map from `(t, b, n)` to the index is
injective on that domain. -/
theorem flat_index_fits_int32 :
    (∀ t b n : Int, 0 ≤ t ∧ t < 8192 → 0 ≤ b ∧ b < 1024 → 0 ≤ n ∧ n < 256 →
      int_mul t dim0 = some (t * dim0) ∧
      int_mul b dim1 = some (b * dim1) ∧
      int_add (t * dim0) (b * dim1) = some (t * dim0 + b * dim1) ∧
      int_add (t * dim0 + b * dim1) n = some (t * dim0 + b * dim1 + n) ∧
      flat_index t b n = some (t * dim0 + b * dim1 + n) ∧
      0 ≤ t * dim0 + b * dim1 + n ∧ t * dim0 + b * dim1 + n ≤ 2 ^ 31 - 1) ∧
    (dim0 = 262144 ∧ dim1 = 256 ∧ INT_MAX = 2 ^ 31 - 1 ∧
      flat_index 8191 1023 255 = some (2 ^ 31 - 1)) ∧
    (∀ t b n t2 b2 n2 : Int, 0 ≤ t ∧ t < 8192 → 0 ≤ b ∧ b < 1024 → 0 ≤ n ∧ n < 256 →
      0 ≤ t2 ∧ t2 < 8192 → 0 ≤ b2 ∧ b2 < 1024 → 0 ≤ n2 ∧ n2 < 256 →
      flat_index t b n = flat_index t2 b2 n2 → t = t2 ∧ b = b2 ∧ n = n2) := by
  refine ⟨?_, ⟨by decide, by decide, by decide, by decide⟩, ?_⟩
  · intro t b n ht hb hn
    refine ⟨?_, ?_, ?_, ?_, flat_index_eq t b n ht hb hn, ?_, ?_⟩
    · apply int_ok_eq
      simp only [dim0, dim1, Tile.size, Block.size, INT_MIN, INT_MAX]
      omega
    · apply int_ok_eq
      simp only [dim1, Block.size, INT_MIN, INT_MAX]
      omega
    · apply int_ok_eq
      simp only [dim0, dim1, Tile.size, Block.size, INT_MIN, INT_MAX]
      omega
    · apply int_ok_eq
      simp only [dim0, dim1, Tile.size, Block.size, INT_MIN, INT_MAX]
      omega
    · simp only [dim0, dim1, Tile.size, Block.size]
      omega
    · simp only [dim0, dim1, Tile.size, Block.size]
      omega
  · intro t b n t2 b2 n2 ht hb hn ht2 hb2 hn2 h
    rw [flat_index_eq t b n ht hb hn, flat_index_eq t2 b2 n2 ht2 hb2 hn2] at h
    have h2 := Option.some.inj h
    simp only [dim0, dim1, Tile.size, Block.size] at h2
    omega

/-- Claim C18 at the triples (5, 12, 7) and (5, 13, 7). -/
theorem flat_index_fits_int32_witness :
    flat_index 5 12 7 = some (5 * dim0 + 12 * dim1 + 7) ∧
    (flat_index 5 12 7 = flat_index 5 13 7 → (5 : Int) = 5 ∧ (12 : Int) = 13 ∧ (7 : Int) = 7) :=
  ⟨(flat_index_fits_int32.1 5 12 7 (by decide) (by decide) (by decide)).2.2.2.2.1,
   flat_index_fits_int32.2.2 5 12 7 5 13 7 (by decide) (by decide) (by decide)
    (by decide) (by decide) (by decide)⟩

/-! ## Kernels read `x` and write `y` -/

/-- Agreement of stores is symmetric. -/
theorem Agree.symm {F : Type} {d0 d : Store F} (h : Agree d0 d) : Agree d d0 :=
  ⟨h.1.symm, fun k b n => (h.2 k b n).symm⟩

/-- Agreeing stores are well-formed together. -/
theorem Agree.wf {F : Type} {d0 d : Store F} (h : Agree d0 d) (hwf : d0.WF) : d.WF := by
  unfold Store.WF at hwf ⊢
  rw [h.1]
  exact hwf

/-- A loop nest whose body writes values that depend on keys, allocation and
`x` only gives the same result on stores that agree. -/
theorem for_each_node_agree {F : Type}
    (body : Store F → Nat → Int → Fin Tile.size → Fin Block.size → Option (Store F))
    (val val2 : Nat → Fin Tile.size → Fin Block.size → Option F) (d0 d2 : Store F)
    (hb : BodySpec body val d0) (hb2 : BodySpec body val2 d2) (hag : Agree d0 d2)
    (hv : ∀ k b n, (block_at d0 k b).isSome → val k b n = val2 k b n) :
    for_each_node body d2 = for_each_node body d0 := by
  cases h : for_each_node body d0 with
  | none =>
    obtain ⟨k, b, n, hk, hnone⟩ := (for_each_node_spec body val d0 hb).2 h
    refine for_each_node_eq_none body val2 d2 hb2 k b n ?_ ?_
    · rw [hag.block_isSome]
      exact hk
    · rw [← hv k b n hk]
      exact hnone
  | some d1 =>
    have hF := (for_each_node_spec body val d0 hb).1 d1 h
    have hsome : ∀ k b n, (block_at d2 k b).isSome → (val2 k b n).isSome := by
      intro k b n hk
      rw [hag.block_isSome] at hk
      obtain ⟨blk, hblk⟩ := Option.isSome_iff_exists.1 hk
      have hnode : node_at d0 k b n = some (blk.nodes n) := by simp [node_at, hblk]
      obtain ⟨v, hv1, _⟩ := ((hF.2 k b n).2 _ hnode).1 trivial
      rw [← hv k b n hk, hv1]
      rfl
    obtain ⟨d3, h3, hF3⟩ := for_each_node_isSome body val2 d2 hb2 hsome
    rw [h3]
    congr 1
    apply store_ext
    · rw [hF3.1, hF.1, hag.1]
    · intro k b n
      cases h0 : node_at d0 k b n with
      | none =>
        have h2 : node_at d2 k b n = none := by
          have := hag.2 k b n
          rw [h0] at this
          cases hc : node_at d2 k b n with
          | none => rfl
          | some _ => simp [hc] at this
        rw [(hF.2 k b n).1 h0, (hF3.2 k b n).1 h2]
      | some nd =>
        have hk : (block_at d0 k b).isSome := by
          unfold node_at at h0
          cases hc : block_at d0 k b with
          | none => simp [hc] at h0
          | some _ => rfl
        obtain ⟨v, hv1, e1⟩ := ((hF.2 k b n).2 nd h0).1 trivial
        cases h2 : node_at d2 k b n with
        | none =>
          have := hag.2 k b n
          simp [h0, h2] at this
        | some nd2 =>
          obtain ⟨v2, hv2, e2⟩ := ((hF3.2 k b n).2 nd2 h2).1 trivial
          have hx : nd2.x = nd.x := by
            have := hag.2 k b n
            simpa [h0, h2] using this
          rw [← hv k b n hk, hv1] at hv2
          cases hv2
          rw [e1, e2, hx]

/-- A kernel that returns on a store returns the same store when run again
on its result, any number of times. -/
theorem run_times_fixed {F : Type} (kernel : Store F → Option (Store F)) (d1 : Store F)
    (h : kernel d1 = some d1) (m : Nat) : run_times kernel m d1 = some d1 := by
  induction m with
  | zero => rfl
  | succ m ih =>
    unfold run_times
    rw [h, Option.some_bind, ih]

/-- The values `copy_ref` writes are the same on stores that agree. -/
theorem copy_ref_val_agree {F : Type} (fl : FloatOps F) (d0 d : Store F) (hwf : d0.WF)
    (hag : Agree d0 d) (k : Nat) (b : Fin Tile.size) (n : Fin Block.size) :
    copy_ref_val fl d0 k b n = copy_ref_val fl d k b n := by
  unfold copy_ref_val
  rw [hag.1]
  cases d0.keys[k]? with
  | none => rfl
  | some key =>
    simp only [Option.some_bind]
    cases flat_index key b.val n.val with
    | none => rfl
    | some i =>
      simp only [Option.some_bind]
      rw [safe_read_agree fl d0 d hwf hag]

/-- The values `stencil_ref` writes are the same on stores that agree. -/
theorem stencil_ref_val_agree {F : Type} (fl : FloatOps F) (d0 d : Store F) (hwf : d0.WF)
    (hag : Agree d0 d) (k : Nat) (b : Fin Tile.size) (n : Fin Block.size) :
    stencil_ref_val fl d0 k b n = stencil_ref_val fl d k b n := by
  unfold stencil_ref_val
  rw [hag.1]
  simp only [safe_read_agree fl d0 d hwf hag]

/-- A kernel built on the loop nest whose written values depend on keys,
allocation and `x` only: its result does not depend on the `y` fields it
starts from, it changes no key, no allocation and no `x`, and running it
again on its own result changes nothing. -/
theorem kernel_only_y {F : Type}
    (body : Store F → Nat → Int → Fin Tile.size → Fin Block.size → Option (Store F))
    (valOf : Store F → Nat → Fin Tile.size → Fin Block.size → Option F)
    (hspec : ∀ d : Store F, d.WF → BodySpec body (valOf d) d)
    (hval : ∀ d d2 : Store F, d.WF → Agree d d2 → ∀ k b n, valOf d k b n = valOf d2 k b n)
    (data : Store F) (hwf : data.WF) :
    (∀ data2, Agree data data2 → for_each_node body data2 = for_each_node body data) ∧
    (∀ d1, for_each_node body data = some d1 →
      Agree data d1 ∧ for_each_node body d1 = some d1 ∧
      ∀ m, run_times (for_each_node body) (m + 1) data = some d1) := by
  have part1 : ∀ data2, Agree data data2 →
      for_each_node body data2 = for_each_node body data := fun data2 hag =>
    for_each_node_agree body (valOf data) (valOf data2) data data2 (hspec data hwf)
      (hspec data2 (hag.wf hwf)) hag fun k b n _ => hval data data2 hwf hag k b n
  refine ⟨part1, fun d1 h => ?_⟩
  have hF := (for_each_node_spec body (valOf data) data (hspec data hwf)).1 d1 h
  have hfix : for_each_node body d1 = some d1 := by rw [part1 d1 hF.agree, h]
  refine ⟨hF.agree, hfix, fun m => ?_⟩
  show (for_each_node body data).bind (run_times (for_each_node body) m) = some d1
  rw [h, Option.some_bind]
  exact run_times_fixed _ d1 hfix m

/-- Claim C19 (the reference kernels are idempotent and touch only `y`). On
every well-formed store, in particular one with tile keys in `[0, 8192)`, and
for each of `copy_ref`, `copy_optimized` and `stencil_ref`: the result is the
same on any store with the same keys, allocated blocks and `x` fields (only
`x` is read); and when the kernel is defined on the store, its result has the
same keys, allocated blocks and `x` fields (only `y` is written), running it
again on the result returns the result, and so does running it twice or ten
times in a row from the start. -/
theorem kernels_idempotent {F : Type} (fl : FloatOps F) (data : Store F) (hwf : data.WF) :
    ((∀ data2, Agree data data2 → copy_ref fl data2 = copy_ref fl data) ∧
      ∀ d1, copy_ref fl data = some d1 →
        Agree data d1 ∧ copy_ref fl d1 = some d1 ∧
        run_times (copy_ref fl) 2 data = some d1 ∧
        run_times (copy_ref fl) 10 data = some d1) ∧
    ((∀ data2, Agree data data2 → copy_optimized data2 = copy_optimized data) ∧
      ∀ d1, copy_optimized data = some d1 →
        Agree data d1 ∧ copy_optimized d1 = some d1 ∧
        run_times copy_optimized 2 data = some d1 ∧
        run_times copy_optimized 10 data = some d1) ∧
    ((∀ data2, Agree data data2 → stencil_ref fl data2 = stencil_ref fl data) ∧
      ∀ d1, stencil_ref fl data = some d1 →
        Agree data d1 ∧ stencil_ref fl d1 = some d1 ∧
        run_times (stencil_ref fl) 2 data = some d1 ∧
        run_times (stencil_ref fl) 10 data = some d1) := by
  have h1 := kernel_only_y (copy_ref_body fl) (copy_ref_val fl)
    (fun d hd => copy_ref_bodySpec fl d hd)
    (fun d d2 hd hag k b n => copy_ref_val_agree fl d d2 hd hag k b n) data hwf
  have h2 := kernel_only_y (F := F) copy_optimized_body copy_optimized_val
    (fun d _ => copy_optimized_bodySpec d)
    (fun d d2 _ hag k b n => (hag.2 k b n).symm) data hwf
  have h3 := kernel_only_y (stencil_ref_body fl) (stencil_ref_val fl)
    (fun d hd => stencil_ref_bodySpec fl d hd)
    (fun d d2 hd hag k b n => stencil_ref_val_agree fl d d2 hd hag k b n) data hwf
  refine ⟨⟨h1.1, fun d1 h => ?_⟩, ⟨h2.1, fun d1 h => ?_⟩, ⟨h3.1, fun d1 h => ?_⟩⟩
  · obtain ⟨a, b, c⟩ := h1.2 d1 h
    exact ⟨a, b, c 1, c 9⟩
  · obtain ⟨a, b, c⟩ := h2.2 d1 h
    exact ⟨a, b, c 1, c 9⟩
  · obtain ⟨a, b, c⟩ := h3.2 d1 h
    exact ⟨a, b, c 1, c 9⟩

/-- Claim C19 on the store with tile 5 and block 12, for `stencil_ref`. -/
theorem kernels_idempotent_witness :
    sample_store.WF ∧
    ∃ d1, stencil_ref ratOps sample_store = some d1 ∧
      Agree sample_store d1 ∧ stencil_ref ratOps d1 = some d1 ∧
      run_times (stencil_ref ratOps) 2 sample_store = some d1 ∧
      run_times (stencil_ref ratOps) 10 sample_store = some d1 := by
  have hwf : sample_store.WF := by simp [Store.WF, Store.keys, sample_store]
  have hkeys : sample_store.KeysInRange := by
    simp [Store.KeysInRange, Store.keys, sample_store]
  have hlo : ∀ k, sample_store.keys[k]? = some 0 →
      block_at sample_store k ⟨0, by decide⟩ = none := by
    intro k hk
    cases k <;> simp [Store.keys, sample_store] at hk
  have hhi : ∀ k, sample_store.keys[k]? = some 8191 →
      block_at sample_store k ⟨1023, by decide⟩ = none := by
    intro k hk
    cases k <;> simp [Store.keys, sample_store] at hk
  obtain ⟨d1, h, _⟩ := stencil_ref_spec ratOps sample_store hwf hkeys hlo hhi
  exact ⟨hwf, d1, h, (kernels_idempotent ratOps sample_store hwf).2.2.2 d1 h⟩

/-! ## The store of the test -/

/-- The keys of the first `n` rounds are below `n`. -/
theorem test_store_upto_keys {F : Type} (fl : FloatOps F)
    (vals : Int → Fin Tile.size → Fin Block.size → F) (n : Nat) (key : Int) :
    key ∈ (test_store_upto fl vals n).keys ↔ 0 ≤ key ∧ key < n ∧ key % 31 = 5 := by
  unfold test_store_upto Store.keys
  simp only [List.map_map, List.mem_map, List.mem_filter, List.mem_range,
    decide_eq_true_eq, Function.comp]
  constructor
  · rintro ⟨i, ⟨hi, h5⟩, rfl⟩
    omega
  · intro h
    exact ⟨key.toNat, ⟨by omega, by omega⟩, by omega⟩

/-- The test's loop, round by round, builds the closed form. -/
theorem test_store_fold {F : Type} (fl : FloatOps F)
    (vals : Int → Fin Tile.size → Fin Block.size → F) (n : Nat) :
    (List.range n).foldl (test_init_step fl vals) [] = test_store_upto fl vals n := by
  induction n with
  | zero => rfl
  | succ n ih =>
    rw [List.range_succ, List.foldl_append, ih]
    simp only [List.foldl_cons, List.foldl_nil]
    unfold test_init_step
    by_cases h5 : n % 31 = 5
    · have hnone : find (test_store_upto fl vals n) (n : Int) = none := by
        rw [find_eq_none_iff, test_store_upto_keys]
        omega
      have hsame : (test_store_upto fl vals n).map
          (fun e => if e.1 = (n : Int) then (e.1, test_tile fl vals (n : Int)) else e)
          = test_store_upto fl vals n := by
        refine (List.map_congr_left fun e he => ?_).trans (List.map_id _)
        have hk : e.1 ∈ (test_store_upto fl vals n).keys := List.mem_map.2 ⟨e, he, rfl⟩
        rw [test_store_upto_keys] at hk
        rw [if_neg (by omega)]
        rfl
      simp only [h5, not_true_eq_false, if_false, map_subscript, hnone, store_assign,
        List.map_append, hsame, List.map_cons, List.map_nil, if_true]
      unfold test_store_upto
      rw [List.range_succ, List.filter_append, List.map_append]
      simp [h5]
    · rw [if_pos h5]
      unfold test_store_upto
      rw [List.range_succ, List.filter_append, List.map_append]
      simp [h5]

/-- The store the test builds has the layout the test describes. -/
theorem test_store_layout {F : Type} (fl : FloatOps F)
    (vals : Int → Fin Tile.size → Fin Block.size → F) : TestLayout (test_store fl vals) := by
  have hform : test_store fl vals = test_store_upto fl vals 8192 := test_store_fold fl vals 8192
  rw [hform]
  refine ⟨?_, ?_, ?_⟩
  · unfold Store.WF Store.keys test_store_upto
    rw [List.map_map]
    refine List.Nodup.map ?_ ((List.nodup_range 8192).filter _)
    intro a b hab
    simp only [Function.comp] at hab
    exact Int.ofNat.inj hab
  · intro key
    rw [test_store_upto_keys]
    constructor
    · rintro ⟨h1, h2, h3⟩
      exact ⟨h1, by omega, h3⟩
    · rintro ⟨h1, h2, h3⟩
      exact ⟨h1, by omega, h3⟩
  · intro k b hk
    unfold test_store_upto at hk ⊢
    rw [List.length_map] at hk
    unfold block_at
    rw [List.getElem?_map, List.getElem?_eq_getElem hk]
    simp only [Option.map_some', Option.some_bind, test_tile]
    by_cases hc : 12 ≤ b.val % 37 ∧ b.val % 37 < 14
    · rw [if_pos hc]
      simp only [Option.isSome_some, true_iff]
      omega
    · rw [if_neg hc]
      simp only [Option.isSome_none, Bool.false_eq_true, false_iff]
      omega

/-- A store with the layout of the test has its keys in `[0, 8192)`. -/
theorem TestLayout.keysInRange {F : Type} {data : Store F} (h : TestLayout data) :
    data.KeysInRange := by
  intro key hk
  have := (h.2.1 key).1 hk
  omega

/-- A safe read at the flat index of a node of an unallocated slot of a
present tile returns zero. -/
theorem safe_access_x_unallocated {F : Type} (fl : FloatOps F) (data : Store F)
    (hwf : data.WF) (k : Nat) (t : Int) (c : Fin Tile.size) (n : Fin Block.size)
    (hk : data.keys[k]? = some t) (h0 : 0 ≤ t) (hc : block_at data k c = none) :
    safe_access_x fl data (t * dim0 + (c.val : Int) * dim1 + (n.val : Int))
      = some (fl.zero, data) := by
  rw [keys_getElem?] at hk
  cases hg : data[k]? with
  | none => simp [hg] at hk
  | some it =>
    obtain ⟨key, tile⟩ := it
    simp only [hg, Option.map_some', Option.some.injEq] at hk
    subst hk
    rw [safe_access_x_flat fl data key h0 c n, find_of_getElem? data hwf k key tile hg]
    rw [block_at_of_getElem? data k _ hg] at hc
    dsimp only at hc
    simp only [tile_x_or_zero, hc, block_x_or_zero]

/-- Claim C20 (the neighbour reads of `stencil_ref` on the store of the
test). In a store whose tiles are exactly the keys `i` in `[0, 8192)` with
`i % 31 = 5`, each with exactly the block slots `j` with `j % 37` in
`{12, 13}`: every index `i` that `stencil_ref` visits is computed without
overflow and satisfies `1 ≤ i` and `i + 1 ≤ 2^31 - 1`, so `i - 1` and `i + 1`
are computed without overflow, their block and node subscripts are in range
and both neighbour reads return; `stencil_ref` as a whole returns; and the
left neighbour of node 0 of every slot with `j % 37 = 12`, and the right
neighbour of node 255 of every slot with `j % 37 = 13`, lie in an unallocated
slot of the same tile and read as 0. -/
theorem test_store_neighbour_reads {F : Type} (fl : FloatOps F) (data : Store F)
    (hlay : TestLayout data) :
    (∀ (k : Nat) (t : Int) (b : Fin Tile.size) (n : Fin Block.size),
      data.keys[k]? = some t → (block_at data k b).isSome →
      flat_index t b.val n.val = some (t * dim0 + b.val * dim1 + n.val) ∧
      1 ≤ t * dim0 + b.val * dim1 + n.val ∧
      t * dim0 + b.val * dim1 + n.val + 1 ≤ 2 ^ 31 - 1 ∧
      int_sub (t * dim0 + b.val * dim1 + n.val) 1
        = some (t * dim0 + b.val * dim1 + n.val - 1) ∧
      int_add (t * dim0 + b.val * dim1 + n.val) 1
        = some (t * dim0 + b.val * dim1 + n.val + 1) ∧
      (0 ≤ block_index (t * dim0 + b.val * dim1 + n.val - 1) ∧
        block_index (t * dim0 + b.val * dim1 + n.val - 1) < 1024 ∧
        0 ≤ node_index (t * dim0 + b.val * dim1 + n.val - 1) ∧
        node_index (t * dim0 + b.val * dim1 + n.val - 1) < 256) ∧
      (0 ≤ block_index (t * dim0 + b.val * dim1 + n.val + 1) ∧
        block_index (t * dim0 + b.val * dim1 + n.val + 1) < 1024 ∧
        0 ≤ node_index (t * dim0 + b.val * dim1 + n.val + 1) ∧
        node_index (t * dim0 + b.val * dim1 + n.val + 1) < 256) ∧
      (∃ v, safe_access_x fl data (t * dim0 + b.val * dim1 + n.val - 1) = some (v, data)) ∧
      (∃ v, safe_access_x fl data (t * dim0 + b.val * dim1 + n.val + 1) = some (v, data))) ∧
    (∃ d1, stencil_ref fl data = some d1) ∧
    (∀ (k : Nat) (t : Int) (b : Fin Tile.size),
      data.keys[k]? = some t → b.val % 37 = 12 →
      (block_at data k b).isSome ∧
      (∀ c : Fin Tile.size, c.val + 1 = b.val → block_at data k c = none) ∧
      safe_access_x fl data (t * dim0 + b.val * dim1 + 0 - 1) = some (fl.zero, data)) ∧
    (∀ (k : Nat) (t : Int) (b : Fin Tile.size),
      data.keys[k]? = some t → b.val % 37 = 13 →
      (block_at data k b).isSome ∧
      (∀ c : Fin Tile.size, c.val = b.val + 1 → block_at data k c = none) ∧
      safe_access_x fl data (t * dim0 + b.val * dim1 + 255 + 1) = some (fl.zero, data)) := by
  obtain ⟨hwf, hkeyset, hblocks⟩ := hlay
  have hkeys : data.KeysInRange := TestLayout.keysInRange ⟨hwf, hkeyset, hblocks⟩
  have hmem : ∀ (k : Nat) (t : Int), data.keys[k]? = some t →
      (0 ≤ t ∧ t < 8192 ∧ t % 31 = 5) ∧ k < data.length := by
    intro k t hk
    refine ⟨(hkeyset t).1 (List.mem_iff_getElem?.2 ⟨k, hk⟩), ?_⟩
    have := (List.getElem?_eq_some.1 hk).1
    unfold Store.keys at this
    rwa [List.length_map] at this
  have hnone : ∀ (k : Nat) (c : Fin Tile.size), k < data.length →
      c.val % 37 ≠ 12 → c.val % 37 ≠ 13 → block_at data k c = none := by
    intro k c hk h12 h13
    cases hc : block_at data k c with
    | none => rfl
    | some blk =>
      have := (hblocks k c hk).1 (by rw [hc]; rfl)
      omega
  refine ⟨?_, ?_, ?_, ?_⟩
  · intro k t b n hk _
    obtain ⟨⟨ht0, ht1, ht5⟩, _⟩ := hmem k t hk
    have hbb : b.val < 1024 := b.isLt
    have hnn : n.val < 256 := n.isLt
    have hf := flat_index_eq t b.val n.val ⟨ht0, ht1⟩ ⟨by omega, by omega⟩
      ⟨by omega, by omega⟩
    have h1 : 1 ≤ t * dim0 + b.val * dim1 + n.val := by
      simp only [dim0, dim1, Tile.size, Block.size]
      omega
    have h2 : t * dim0 + b.val * dim1 + n.val + 1 ≤ 2 ^ 31 - 1 := by
      simp only [dim0, dim1, Tile.size, Block.size]
      omega
    have hs : int_sub (t * dim0 + b.val * dim1 + n.val) 1
        = some (t * dim0 + b.val * dim1 + n.val - 1) := by
      apply int_ok_eq
      simp only [INT_MIN, INT_MAX]
      omega
    have ha : int_add (t * dim0 + b.val * dim1 + n.val) 1
        = some (t * dim0 + b.val * dim1 + n.val + 1) := by
      apply int_ok_eq
      simp only [INT_MIN, INT_MAX]
      omega
    obtain ⟨_, l2, l3, l4, l5, _⟩ :=
      decompose_bounds (t * dim0 + b.val * dim1 + n.val - 1) (by omega)
    obtain ⟨_, r2, r3, r4, r5, _⟩ :=
      decompose_bounds (t * dim0 + b.val * dim1 + n.val + 1) (by omega)
    exact ⟨hf, h1, h2, hs, ha, ⟨l2, l3, l4, l5⟩, ⟨r2, r3, r4, r5⟩,
      safe_access_x_defined fl data _ (by omega),
      safe_access_x_defined fl data _ (by omega)⟩
  · have hlo : ∀ k, data.keys[k]? = some 0 → block_at data k ⟨0, by decide⟩ = none := by
      intro k hk
      have := (hmem k 0 hk).1
      omega
    have hhi : ∀ k, data.keys[k]? = some 8191 →
        block_at data k ⟨1023, by decide⟩ = none := by
      intro k hk
      have := (hmem k 8191 hk).1
      omega
    obtain ⟨d1, h, _⟩ := stencil_ref_spec fl data hwf hkeys hlo hhi
    exact ⟨d1, h⟩
  · intro k t b hk h12
    obtain ⟨⟨ht0, ht1, ht5⟩, hlen⟩ := hmem k t hk
    have hbb : b.val < 1024 := b.isLt
    have hprev : ∀ c : Fin Tile.size, c.val + 1 = b.val → block_at data k c = none :=
      fun c hc => hnone k c hlen (by omega) (by omega)
    refine ⟨(hblocks k b hlen).2 (Or.inl h12), hprev, ?_⟩
    have hlt : b.val - 1 < Tile.size := lt_of_le_of_lt (Nat.sub_le _ _) b.isLt
    have hc := hprev ⟨b.val - 1, hlt⟩ (by simp only; omega)
    have e : t * dim0 + (b.val : Int) * dim1 + 0 - 1
        = t * dim0 + (((⟨b.val - 1, hlt⟩ : Fin Tile.size).val : Nat) : Int) * dim1
          + (((⟨255, by decide⟩ : Fin Block.size).val : Nat) : Int) := by
      simp only [dim0, dim1, Tile.size, Block.size]
      omega
    rw [e]
    exact safe_access_x_unallocated fl data hwf k t _ _ hk ht0 hc
  · intro k t b hk h13
    obtain ⟨⟨ht0, ht1, ht5⟩, hlen⟩ := hmem k t hk
    have hbb : b.val < 1024 := b.isLt
    have hnext : ∀ c : Fin Tile.size, c.val = b.val + 1 → block_at data k c = none :=
      fun c hc => hnone k c hlen (by omega) (by omega)
    refine ⟨(hblocks k b hlen).2 (Or.inr h13), hnext, ?_⟩
    have hlt : b.val + 1 < Tile.size := by
      show b.val + 1 < 1024
      omega
    have hc := hnext ⟨b.val + 1, hlt⟩ rfl
    have e : t * dim0 + (b.val : Int) * dim1 + 255 + 1
        = t * dim0 + (((⟨b.val + 1, hlt⟩ : Fin Tile.size).val : Nat) : Int) * dim1
          + (((⟨0, by decide⟩ : Fin Block.size).val : Nat) : Int) := by
      simp only [dim0, dim1, Tile.size, Block.size]
      omega
    rw [e]
    exact safe_access_x_unallocated fl data hwf k t _ _ hk ht0 hc

/-- Claim C20 on the store the test builds, with `x = k` in node `k` of every
block: `stencil_ref` returns on it. -/
theorem test_store_neighbour_reads_witness :
    TestLayout (test_store ratOps fun _ _ k => (k.val : ℚ)) ∧
    ∃ d1, stencil_ref ratOps (test_store ratOps fun _ _ k => (k.val : ℚ)) = some d1 :=
  ⟨test_store_layout ratOps _,
   (test_store_neighbour_reads ratOps _ (test_store_layout ratOps _)).2.1⟩

end Stencil1d

namespace Tlang

/-! ## The external compiler command -/

/-- The optimisation flag for a level within `0..4`. -/
theorem gcc_opt_flag_valid (c : CompileConfig)
    (h : 0 ≤ c.external_optimization_level ∧ c.external_optimization_level < 5) :
    c.gcc_opt_flag =
      some (if c.external_optimization_level < 4 then
        "-O" ++ fmt_int c.external_optimization_level else "-Ofast") := by
  unfold CompileConfig.gcc_opt_flag TC_ASSERT
  rw [if_pos h]
  by_cases h4 : c.external_optimization_level < 4
  · simp [h4]
  · simp [h4]

/-- Claim C9 (optimisation level mapping). `gcc_opt_flag` returns `-O`
followed by the decimal level when the level is 0, 1, 2 or 3 (`-O0`, `-O1`,
`-O2`, `-O3`), returns `-Ofast` when it is 4, fails its assertion, returning
no flag, exactly when the level is outside `0..4`, and yields `-O3` for a
default-constructed configuration. -/
theorem gcc_opt_flag_mapping (c : CompileConfig) :
    (0 ≤ c.external_optimization_level ∧ c.external_optimization_level ≤ 3 →
      c.gcc_opt_flag = some ("-O" ++ fmt_int c.external_optimization_level)) ∧
    (c.external_optimization_level = 0 → c.gcc_opt_flag = some "-O0") ∧
    (c.external_optimization_level = 1 → c.gcc_opt_flag = some "-O1") ∧
    (c.external_optimization_level = 2 → c.gcc_opt_flag = some "-O2") ∧
    (c.external_optimization_level = 3 → c.gcc_opt_flag = some "-O3") ∧
    (c.external_optimization_level = 4 → c.gcc_opt_flag = some "-Ofast") ∧
    (c.gcc_opt_flag = none ↔
      c.external_optimization_level < 0 ∨ 4 < c.external_optimization_level) ∧
    (∀ osx, (CompileConfig.ctor osx).gcc_opt_flag = some "-O3") := by
  refine ⟨?_, ?_, ?_, ?_, ?_, ?_, ?_, ?_⟩
  · intro h
    rw [gcc_opt_flag_valid c ⟨h.1, by omega⟩, if_pos (by omega)]
  · intro h
    rw [gcc_opt_flag_valid c (by omega), h]
    decide
  · intro h
    rw [gcc_opt_flag_valid c (by omega), h]
    decide
  · intro h
    rw [gcc_opt_flag_valid c (by omega), h]
    decide
  · intro h
    rw [gcc_opt_flag_valid c (by omega), h]
    decide
  · intro h
    rw [gcc_opt_flag_valid c (by omega), h]
    decide
  · constructor
    · intro h
      by_contra hc
      rw [gcc_opt_flag_valid c (by omega)] at h
      cases h
    · intro h
      unfold CompileConfig.gcc_opt_flag TC_ASSERT
      rw [if_neg (by omega)]
      rfl
  · intro osx
    cases osx <;> decide

/-- Claim C9 at level 2. -/
theorem gcc_opt_flag_mapping_witness :
    CompileConfig.gcc_opt_flag
        { CompileConfig.ctor false with external_optimization_level := 2 }
      = some "-O2" :=
  (gcc_opt_flag_mapping _).2.2.2.1 rfl

/-- Claim C10 (verbose flag). For every configuration with a valid
optimisation level and every input and output name, `compile_cmd` with
`verbose = true` returns the formatted command with nothing appended,
`compile_cmd` with `verbose = false` returns that same command followed by the
suffix `" 2> " + input + ".log"`, and a call that leaves `verbose` out is the
call with `verbose = false`. -/
theorem compile_cmd_verbose (c : CompileConfig) (repo_dir input output : String)
    (h : 0 ≤ c.external_optimization_level ∧ c.external_optimization_level < 5) :
    ∃ opt, c.gcc_opt_flag = some opt ∧
      c.compile_cmd repo_dir input output true
        = some (c.format_cmd repo_dir input output opt) ∧
      c.compile_cmd repo_dir input output false
        = some (c.format_cmd repo_dir input output opt ++ (" 2> " ++ input ++ ".log")) ∧
      c.compile_cmd repo_dir input output false
        = (c.compile_cmd repo_dir input output true).map
            (fun cmd => cmd ++ (" 2> " ++ input ++ ".log")) ∧
      c.compile_cmd repo_dir input output = c.compile_cmd repo_dir input output false := by
  refine ⟨_, gcc_opt_flag_valid c h, ?_, ?_, ?_, rfl⟩
  · simp [CompileConfig.compile_cmd, gcc_opt_flag_valid c h]
  · simp [CompileConfig.compile_cmd, gcc_opt_flag_valid c h]
  · simp [CompileConfig.compile_cmd, gcc_opt_flag_valid c h]

/-- Claim C10 for the default configuration and the names `a.cpp`, `a.so`. -/
theorem compile_cmd_verbose_witness :
    ∃ opt, (CompileConfig.ctor false).gcc_opt_flag = some opt ∧
      (CompileConfig.ctor false).compile_cmd "/repo" "a.cpp" "a.so" true
        = some ((CompileConfig.ctor false).format_cmd "/repo" "a.cpp" "a.so" opt) ∧
      (CompileConfig.ctor false).compile_cmd "/repo" "a.cpp" "a.so" false
        = some ((CompileConfig.ctor false).format_cmd "/repo" "a.cpp" "a.so" opt
            ++ (" 2> " ++ "a.cpp" ++ ".log")) ∧
      (CompileConfig.ctor false).compile_cmd "/repo" "a.cpp" "a.so" false
        = ((CompileConfig.ctor false).compile_cmd "/repo" "a.cpp" "a.so" true).map
            (fun cmd => cmd ++ (" 2> " ++ "a.cpp" ++ ".log")) ∧
      (CompileConfig.ctor false).compile_cmd "/repo" "a.cpp" "a.so"
        = (CompileConfig.ctor false).compile_cmd "/repo" "a.cpp" "a.so" false :=
  compile_cmd_verbose (CompileConfig.ctor false) "/repo" "a.cpp" "a.so" (by decide)

/-! ## The shape of the command -/

/-- The formatted command ends with `-lstdc++ ` and the extra flags. -/
theorem format_cmd_tail (c : CompileConfig) (repo_dir input output opt : String) :
    ∃ pre, c.format_cmd repo_dir input output opt = pre ++ "-lstdc++ " ++ c.extra_flags := by
  refine ⟨c.compiler_name ++ " " ++ input ++ " -std=c++14 -shared -fPIC " ++ opt
    ++ " -march=native -mfma -I " ++ get_project_fn repo_dir ++ "/headers "
    ++ "-ffp-contract=fast "
    ++ "-fopenmp -Wall -D_GLIBCXX_USE_CXX11_ABI=0 -DTLANG_CPU -o " ++ output ++ " ", ?_⟩
  unfold CompileConfig.format_cmd
  rw [show " -lstdc++ " = " " ++ "-lstdc++ " by decide]
  simp only [String.append_assoc]

/-- Claim C11 (extra raw flags are appended verbatim). For every configuration
with a valid optimisation level, the command `compile_cmd(input, output, true)`
returns ends with `-lstdc++ ` followed by the configuration's `extra_flags`
string and nothing after it; with `verbose = false` the only text after
`extra_flags` is the log redirection `" 2> " + input + ".log"`. -/
theorem compile_cmd_extra_flags (c : CompileConfig) (repo_dir input output : String)
    (h : 0 ≤ c.external_optimization_level ∧ c.external_optimization_level < 5) :
    ∃ pre,
      c.compile_cmd repo_dir input output true
        = some (pre ++ "-lstdc++ " ++ c.extra_flags) ∧
      c.compile_cmd repo_dir input output false
        = some (pre ++ "-lstdc++ " ++ c.extra_flags ++ (" 2> " ++ input ++ ".log")) := by
  obtain ⟨pre, hpre⟩ := format_cmd_tail c repo_dir input output
    (if c.external_optimization_level < 4 then
      "-O" ++ fmt_int c.external_optimization_level else "-Ofast")
  refine ⟨pre, ?_, ?_⟩
  · simp [CompileConfig.compile_cmd, gcc_opt_flag_valid c h, hpre]
  · simp [CompileConfig.compile_cmd, gcc_opt_flag_valid c h, hpre]

/-- Claim C11 for a configuration with the extra flags `-g -DX=1`. -/
theorem compile_cmd_extra_flags_witness :
    ∃ pre,
      CompileConfig.compile_cmd { CompileConfig.ctor false with extra_flags := "-g -DX=1" }
          "/repo" "a.cpp" "a.so" true
        = some (pre ++ "-lstdc++ " ++ "-g -DX=1") ∧
      CompileConfig.compile_cmd { CompileConfig.ctor false with extra_flags := "-g -DX=1" }
          "/repo" "a.cpp" "a.so" false
        = some (pre ++ "-lstdc++ " ++ "-g -DX=1" ++ (" 2> " ++ "a.cpp" ++ ".log")) :=
  compile_cmd_extra_flags { CompileConfig.ctor false with extra_flags := "-g -DX=1" }
    "/repo" "a.cpp" "a.so" (by decide)

/-- The five fixed flags of the formatted command, each between blanks. -/
theorem format_cmd_flags (c : CompileConfig) (repo_dir input output opt : String) :
    (∃ pre post, c.format_cmd repo_dir input output opt = pre ++ " -shared " ++ post) ∧
    (∃ pre post, c.format_cmd repo_dir input output opt = pre ++ " -fPIC " ++ post) ∧
    (∃ pre post, c.format_cmd repo_dir input output opt = pre ++ " -march=native " ++ post) ∧
    (∃ pre post, c.format_cmd repo_dir input output opt = pre ++ " -mfma " ++ post) ∧
    (∃ pre post, c.format_cmd repo_dir input output opt
      = pre ++ " -ffp-contract=fast " ++ post) := by
  refine ⟨?_, ?_, ?_, ?_, ?_⟩
  · refine ⟨c.compiler_name ++ " " ++ input ++ " -std=c++14",
      "-fPIC " ++ opt ++ " -march=native -mfma -I " ++ get_project_fn repo_dir
        ++ "/headers " ++ "-ffp-contract=fast "
        ++ "-fopenmp -Wall -D_GLIBCXX_USE_CXX11_ABI=0 -DTLANG_CPU -o " ++ output
        ++ " -lstdc++ " ++ c.extra_flags, ?_⟩
    unfold CompileConfig.format_cmd
    rw [show " -std=c++14 -shared -fPIC " = " -std=c++14" ++ (" -shared " ++ "-fPIC ")
      by decide]
    simp only [String.append_assoc]
  · refine ⟨c.compiler_name ++ " " ++ input ++ " -std=c++14 -shared",
      opt ++ " -march=native -mfma -I " ++ get_project_fn repo_dir
        ++ "/headers " ++ "-ffp-contract=fast "
        ++ "-fopenmp -Wall -D_GLIBCXX_USE_CXX11_ABI=0 -DTLANG_CPU -o " ++ output
        ++ " -lstdc++ " ++ c.extra_flags, ?_⟩
    unfold CompileConfig.format_cmd
    rw [show " -std=c++14 -shared -fPIC " = " -std=c++14 -shared" ++ " -fPIC " by decide]
    simp only [String.append_assoc]
  · refine ⟨c.compiler_name ++ " " ++ input ++ " -std=c++14 -shared -fPIC " ++ opt,
      "-mfma -I " ++ get_project_fn repo_dir
        ++ "/headers " ++ "-ffp-contract=fast "
        ++ "-fopenmp -Wall -D_GLIBCXX_USE_CXX11_ABI=0 -DTLANG_CPU -o " ++ output
        ++ " -lstdc++ " ++ c.extra_flags, ?_⟩
    unfold CompileConfig.format_cmd
    rw [show " -march=native -mfma -I " = " -march=native " ++ "-mfma -I " by decide]
    simp only [String.append_assoc]
  · refine ⟨c.compiler_name ++ " " ++ input ++ " -std=c++14 -shared -fPIC " ++ opt
        ++ " -march=native",
      "-I " ++ get_project_fn repo_dir
        ++ "/headers " ++ "-ffp-contract=fast "
        ++ "-fopenmp -Wall -D_GLIBCXX_USE_CXX11_ABI=0 -DTLANG_CPU -o " ++ output
        ++ " -lstdc++ " ++ c.extra_flags, ?_⟩
    unfold CompileConfig.format_cmd
    rw [show " -march=native -mfma -I " = " -march=native" ++ (" -mfma " ++ "-I ") by decide]
    simp only [String.append_assoc]
  · refine ⟨c.compiler_name ++ " " ++ input ++ " -std=c++14 -shared -fPIC " ++ opt
        ++ " -march=native -mfma -I " ++ get_project_fn repo_dir ++ "/headers",
      "-fopenmp -Wall -D_GLIBCXX_USE_CXX11_ABI=0 -DTLANG_CPU -o " ++ output
        ++ " -lstdc++ " ++ c.extra_flags, ?_⟩
    unfold CompileConfig.format_cmd
    rw [show "/headers " = "/headers" ++ " " by decide,
      show " -ffp-contract=fast " = " " ++ "-ffp-contract=fast " by decide]
    simp only [String.append_assoc]

/-- The command of `compile_cmd` with a valid level: the formatted command,
followed by the redirection when `verbose` is false. -/
theorem compile_cmd_valid (c : CompileConfig) (repo_dir input output : String)
    (verbose : Bool)
    (h : 0 ≤ c.external_optimization_level ∧ c.external_optimization_level < 5) :
    ∃ opt post, c.gcc_opt_flag = some opt ∧
      c.compile_cmd repo_dir input output verbose
        = some (c.format_cmd repo_dir input output opt ++ post) := by
  refine ⟨_, if verbose then "" else " 2> " ++ input ++ ".log", gcc_opt_flag_valid c h, ?_⟩
  cases verbose
  · simp [CompileConfig.compile_cmd, gcc_opt_flag_valid c h]
  · simp [CompileConfig.compile_cmd, gcc_opt_flag_valid c h]

/-- Claim C12 (fixed, deterministic flag set). For every configuration with a
valid optimisation level, whatever its arch, compiler selector and extra
flags, and every input and output name, the command `compile_cmd` returns
contains the flags `-shared`, `-fPIC`, `-march=native`, `-mfma` and
`-ffp-contract=fast`, each between blanks; and two calls of `compile_cmd` with
equal configuration, project directory, input, output and verbose flag return
equal strings. -/
theorem compile_cmd_fixed_flags (c : CompileConfig) (repo_dir input output : String)
    (verbose : Bool)
    (h : 0 ≤ c.external_optimization_level ∧ c.external_optimization_level < 5) :
    (∃ cmd, c.compile_cmd repo_dir input output verbose = some cmd ∧
      (∃ pre post, cmd = pre ++ " -shared " ++ post) ∧
      (∃ pre post, cmd = pre ++ " -fPIC " ++ post) ∧
      (∃ pre post, cmd = pre ++ " -march=native " ++ post) ∧
      (∃ pre post, cmd = pre ++ " -mfma " ++ post) ∧
      (∃ pre post, cmd = pre ++ " -ffp-contract=fast " ++ post)) ∧
    (∀ (c2 : CompileConfig) (repo_dir2 input2 output2 : String) (verbose2 : Bool),
      c2 = c → repo_dir2 = repo_dir → input2 = input → output2 = output →
      verbose2 = verbose →
      c2.compile_cmd repo_dir2 input2 output2 verbose2
        = c.compile_cmd repo_dir input output verbose) := by
  constructor
  · obtain ⟨opt, tail, _, hcmd⟩ := compile_cmd_valid c repo_dir input output verbose h
    obtain ⟨⟨p1, q1, h1⟩, ⟨p2, q2, h2⟩, ⟨p3, q3, h3⟩, ⟨p4, q4, h4⟩, ⟨p5, q5, h5⟩⟩ :=
      format_cmd_flags c repo_dir input output opt
    refine ⟨_, hcmd, ⟨p1, q1 ++ tail, ?_⟩, ⟨p2, q2 ++ tail, ?_⟩, ⟨p3, q3 ++ tail, ?_⟩,
      ⟨p4, q4 ++ tail, ?_⟩, ⟨p5, q5 ++ tail, ?_⟩⟩
    · rw [h1, String.append_assoc]
    · rw [h2, String.append_assoc]
    · rw [h3, String.append_assoc]
    · rw [h4, String.append_assoc]
    · rw [h5, String.append_assoc]
  · intro c2 repo_dir2 input2 output2 verbose2 e1 e2 e3 e4 e5
    rw [e1, e2, e3, e4, e5]

/-- Claim C12 for a GPU configuration with the `clang-7` selector, level 4 and
extra flags. -/
theorem compile_cmd_fixed_flags_witness :
    ∃ cmd,
      CompileConfig.compile_cmd
          { CompileConfig.ctor false with
            arch := Arch.gpu, gcc_version := -2, external_optimization_level := 4,
            extra_flags := "-g" }
          "/repo" "a.cpp" "a.so" false = some cmd ∧
      (∃ pre post, cmd = pre ++ " -shared " ++ post) ∧
      (∃ pre post, cmd = pre ++ " -fPIC " ++ post) ∧
      (∃ pre post, cmd = pre ++ " -march=native " ++ post) ∧
      (∃ pre post, cmd = pre ++ " -mfma " ++ post) ∧
      (∃ pre post, cmd = pre ++ " -ffp-contract=fast " ++ post) :=
  (compile_cmd_fixed_flags
    { CompileConfig.ctor false with
      arch := Arch.gpu, gcc_version := -2, external_optimization_level := 4,
      extra_flags := "-g" }
    "/repo" "a.cpp" "a.so" false (by decide)).1

/-- Claim C13, the code at two configurations that differ only in `arch`:
the default configuration (`Arch::x86_64`) and the same configuration with
`Arch::gpu` yield the same command, so the same instruction flags. -/
theorem compile_cmd_arch_same_command :
    (CompileConfig.ctor false).arch = Arch.x86_64 ∧
    CompileConfig.compile_cmd { CompileConfig.ctor false with arch := Arch.gpu }
        "/repo" "a.cpp" "a.so" true
      = CompileConfig.compile_cmd (CompileConfig.ctor false) "/repo" "a.cpp" "a.so" true ∧
    ¬ (CompileConfig.compile_cmd { CompileConfig.ctor false with arch := Arch.gpu }
        "/repo" "a.cpp" "a.so" true
      ≠ CompileConfig.compile_cmd (CompileConfig.ctor false) "/repo" "a.cpp" "a.so" true) :=
  ⟨rfl, rfl, fun hne => hne rfl⟩

/-- Claim C13 as amended. The string `compile_cmd` returns does not depend on
the configuration's `arch` field: two configurations that differ only in
`arch` yield the same command, and with a valid optimisation level its
instruction-set flags are `-march=native -mfma` whatever the arch. -/
theorem compile_cmd_arch_independent (c : CompileConfig) (a : Arch)
    (repo_dir input output : String) (verbose : Bool) :
    CompileConfig.compile_cmd { c with arch := a } repo_dir input output verbose
      = c.compile_cmd repo_dir input output verbose ∧
    (0 ≤ c.external_optimization_level ∧ c.external_optimization_level < 5 →
      ∃ cmd pre post,
        CompileConfig.compile_cmd { c with arch := a } repo_dir input output verbose
          = some cmd ∧
        cmd = pre ++ " -march=native -mfma " ++ post) := by
  refine ⟨rfl, fun h => ?_⟩
  obtain ⟨opt, tail, _, hcmd⟩ := compile_cmd_valid c repo_dir input output verbose h
  refine ⟨_, c.compiler_name ++ " " ++ input ++ " -std=c++14 -shared -fPIC " ++ opt,
    "-I " ++ get_project_fn repo_dir
      ++ "/headers " ++ "-ffp-contract=fast "
      ++ "-fopenmp -Wall -D_GLIBCXX_USE_CXX11_ABI=0 -DTLANG_CPU -o " ++ output
      ++ " -lstdc++ " ++ c.extra_flags ++ tail, hcmd, ?_⟩
  unfold CompileConfig.format_cmd
  rw [show " -march=native -mfma -I " = " -march=native -mfma " ++ "-I " by decide]
  simp only [String.append_assoc]

/-- Claim C13 as amended, for the default configuration switched to the GPU. -/
theorem compile_cmd_arch_independent_witness :
    ∃ cmd pre post,
      CompileConfig.compile_cmd { CompileConfig.ctor false with arch := Arch.gpu }
        "/repo" "a.cpp" "a.so" true = some cmd ∧
      cmd = pre ++ " -march=native -mfma " ++ post :=
  (compile_cmd_arch_independent (CompileConfig.ctor false) Arch.gpu
    "/repo" "a.cpp" "a.so" true).2 (by decide)

/-- Claim C16 (the target architecture selects the vector width).
`default_simd_width` returns 8 for `Arch::x86_64` and 32 for `Arch::gpu`, and
a newly constructed `CompileConfig` has `arch = x86_64` and
`simd_width = default_simd_width(arch) = 8`, which does not exceed its
`max_vector_width` of 8. -/
theorem default_simd_width_values :
    default_simd_width Arch.x86_64 = 8 ∧
    default_simd_width Arch.gpu = 32 ∧
    ∀ osx : Bool,
      (CompileConfig.ctor osx).arch = Arch.x86_64 ∧
      (CompileConfig.ctor osx).simd_width = default_simd_width (CompileConfig.ctor osx).arch ∧
      (CompileConfig.ctor osx).simd_width = 8 ∧
      (CompileConfig.ctor osx).max_vector_width = 8 ∧
      (CompileConfig.ctor osx).simd_width ≤ (CompileConfig.ctor osx).max_vector_width := by
  refine ⟨rfl, rfl, fun osx => ⟨rfl, rfl, rfl, rfl, ?_⟩⟩
  cases osx <;> decide

/-! ## The decimal rendering of an `int` -/

/-- A digit character denotes its digit and is not the minus sign. -/
theorem digitChar_spec :
    ∀ m, m < 10 → digit_value (Nat.digitChar m) = m ∧ Nat.digitChar m ≠ '-' := by
  decide

/-- Reading back the digits `Nat.toDigitsCore` puts before `ds`. -/
theorem decimal_value_toDigitsCore (fuel : Nat) :
    ∀ (n : Nat) (ds : List Char), n < fuel →
      decimal_value (Nat.toDigitsCore 10 fuel n ds) 0 = decimal_value ds n := by
  induction fuel with
  | zero => intro n ds h; omega
  | succ fuel ih =>
    intro n ds h
    have hd := (digitChar_spec (n % 10) (Nat.mod_lt _ (by decide))).1
    unfold Nat.toDigitsCore
    by_cases h0 : n / 10 = 0
    · simp only [h0, if_true]
      simp only [decimal_value, List.foldl_cons, hd]
      have : 10 * 0 + n % 10 = n := by omega
      rw [this]
    · simp only [h0, if_false]
      rw [ih (n / 10) _ (by omega)]
      simp only [decimal_value, List.foldl_cons, hd]
      have : 10 * (n / 10) + n % 10 = n := by omega
      rw [this]

/-- The rendering `Nat.toDigitsCore` produces starts with a digit. -/
theorem toDigitsCore_head (fuel : Nat) :
    ∀ (n : Nat) (ds : List Char),
      ∃ c rest, Nat.toDigitsCore 10 (fuel + 1) n ds = c :: rest ∧ c ≠ '-' := by
  induction fuel with
  | zero =>
    intro n ds
    have hd := (digitChar_spec (n % 10) (Nat.mod_lt _ (by decide))).2
    unfold Nat.toDigitsCore
    by_cases h0 : n / 10 = 0
    · simp only [h0, if_true]
      exact ⟨_, _, rfl, hd⟩
    · simp only [h0, if_false]
      exact ⟨_, _, rfl, hd⟩
  | succ fuel ih =>
    intro n ds
    have hd := (digitChar_spec (n % 10) (Nat.mod_lt _ (by decide))).2
    unfold Nat.toDigitsCore
    by_cases h0 : n / 10 = 0
    · simp only [h0, if_true]
      exact ⟨_, _, rfl, hd⟩
    · simp only [h0, if_false]
      exact ih _ _

/-- Reading the rendering of a natural number back gives the number. -/
theorem parse_int_toDigits (m : Nat) : parse_int (Nat.toDigits 10 m) = m := by
  unfold Nat.toDigits
  obtain ⟨c, rest, hc, hne⟩ := toDigitsCore_head m m []
  have hv := decimal_value_toDigitsCore (m + 1) m [] (by omega)
  rw [hc] at hv
  rw [hc]
  simp only [parse_int, hne, if_false, hv]
  rfl

/-- The rendering `fmt_int` is the decimal rendering: reading it back gives
the integer. -/
theorem parse_int_fmt_int (z : Int) : parse_int (fmt_int z).data = z := by
  cases z with
  | ofNat m =>
    have : (fmt_int (Int.ofNat m)).data = Nat.toDigits 10 m := rfl
    rw [this, parse_int_toDigits]
    rfl
  | negSucc m =>
    have : (fmt_int (Int.negSucc m)).data = '-' :: Nat.toDigits 10 (m + 1) := rfl
    rw [this]
    have hp := parse_int_toDigits (m + 1)
    obtain ⟨c, rest, hc, hne⟩ := toDigitsCore_head (m + 1) (m + 1) []
    unfold Nat.toDigits at hp ⊢
    rw [hc] at hp ⊢
    simp only [parse_int, hne, if_false] at hp
    simp only [parse_int, if_true, hp]
    rfl

/-- Distinct integers have distinct renderings. -/
theorem fmt_int_injective (a b : Int) (h : fmt_int a = fmt_int b) : a = b := by
  rw [← parse_int_fmt_int a, ← parse_int_fmt_int b, h]

/-- The compiler name determines the selector. -/
theorem compiler_name_injective (c1 c2 : CompileConfig)
    (h : c1.compiler_name = c2.compiler_name) : c1.gcc_version = c2.gcc_version := by
  have hlen : ∀ s : String, "gcc" ≠ "gcc-" ++ s := by
    intro s e
    have := congrArg String.length e
    rw [String.length_append] at this
    have h3 : "gcc".length = 3 := by decide
    have h4 : "gcc-".length = 4 := by decide
    omega
  have hhead : ∀ s : String, "clang-7" ≠ "gcc-" ++ s := by
    intro s e
    have := congrArg String.data e
    rw [String.data_append] at this
    have hc : "clang-7".data = 'c' :: "lang-7".data := rfl
    have hg : "gcc-".data = 'g' :: "cc-".data := rfl
    rw [hc, hg, List.cons_append] at this
    have := (List.cons.inj this).1
    revert this
    decide
  have htail : ∀ s t : String, "gcc-" ++ s = "gcc-" ++ t → s = t := by
    intro s t e
    have := congrArg String.data e
    rw [String.data_append, String.data_append] at this
    exact String.ext (List.append_cancel_left this)
  unfold CompileConfig.compiler_name at h
  by_cases a1 : c1.gcc_version = -1
  · by_cases b1 : c2.gcc_version = -1
    · rw [a1, b1]
    · by_cases b2 : c2.gcc_version = -2
      · simp only [a1, b1, b2, if_true, if_false] at h
        exact absurd h (by decide)
      · simp only [a1, b1, b2, if_true, if_false] at h
        exact (hlen _ h).elim
  · by_cases a2 : c1.gcc_version = -2
    · by_cases b1 : c2.gcc_version = -1
      · simp only [a1, a2, b1, if_true, if_false] at h
        exact absurd h (by decide)
      · by_cases b2 : c2.gcc_version = -2
        · rw [a2, b2]
        · simp only [a1, a2, b1, b2, if_true, if_false] at h
          exact (hhead _ h).elim
    · by_cases b1 : c2.gcc_version = -1
      · simp only [a1, a2, b1, if_true, if_false] at h
        exact (hlen _ h.symm).elim
      · by_cases b2 : c2.gcc_version = -2
        · simp only [a1, a2, b1, b2, if_true, if_false] at h
          exact (hhead _ h.symm).elim
        · simp only [a1, a2, b1, b2, if_false] at h
          exact fmt_int_injective _ _ (htail _ _ h)

/-- Claim C17 (compiler selector). `compiler_name` returns `gcc` when
`gcc_version` is -1, `clang-7` when it is -2, and `gcc-` followed by the
decimal rendering of `gcc_version` for every other value (`gcc-5` for the
default 5); distinct selector values give distinct compiler names; and with a
valid optimisation level the command `compile_cmd` returns begins with
`compiler_name()`, a space and the input name. -/
theorem compiler_name_selector (c : CompileConfig) :
    (c.gcc_version = -1 → c.compiler_name = "gcc") ∧
    (c.gcc_version = -2 → c.compiler_name = "clang-7") ∧
    (c.gcc_version ≠ -1 → c.gcc_version ≠ -2 →
      c.compiler_name = "gcc-" ++ fmt_int c.gcc_version ∧
      parse_int (fmt_int c.gcc_version).data = c.gcc_version) ∧
    (c.gcc_version = 5 → c.compiler_name = "gcc-5") ∧
    (∀ c2 : CompileConfig, c2.gcc_version ≠ c.gcc_version →
      c2.compiler_name ≠ c.compiler_name) ∧
    (∀ (repo_dir input output : String) (verbose : Bool),
      0 ≤ c.external_optimization_level ∧ c.external_optimization_level < 5 →
      ∃ rest, c.compile_cmd repo_dir input output verbose
        = some (c.compiler_name ++ " " ++ input ++ rest)) := by
  refine ⟨?_, ?_, ?_, ?_, ?_, ?_⟩
  · intro h
    simp [CompileConfig.compiler_name, h]
  · intro h
    simp [CompileConfig.compiler_name, h]
  · intro h1 h2
    exact ⟨by simp [CompileConfig.compiler_name, h1, h2], parse_int_fmt_int _⟩
  · intro h
    simp only [CompileConfig.compiler_name, h]
    decide
  · intro c2 hne e
    exact hne (compiler_name_injective c2 c e)
  · intro repo_dir input output verbose h
    obtain ⟨opt, tail, _, hcmd⟩ := compile_cmd_valid c repo_dir input output verbose h
    refine ⟨" -std=c++14 -shared -fPIC " ++ opt
      ++ " -march=native -mfma -I " ++ get_project_fn repo_dir ++ "/headers "
      ++ "-ffp-contract=fast "
      ++ "-fopenmp -Wall -D_GLIBCXX_USE_CXX11_ABI=0 -DTLANG_CPU -o " ++ output ++ " -lstdc++ "
      ++ c.extra_flags ++ tail, ?_⟩
    rw [hcmd]
    unfold CompileConfig.format_cmd
    simp only [String.append_assoc]

/-- Claim C17 for the selectors 7 and 5, and for the default command. -/
theorem compiler_name_selector_witness :
    CompileConfig.compiler_name { CompileConfig.ctor false with gcc_version := 7 }
      ≠ (CompileConfig.ctor false).compiler_name ∧
    ∃ rest, (CompileConfig.ctor false).compile_cmd "/repo" "a.cpp" "a.so" true
      = some ((CompileConfig.ctor false).compiler_name ++ " " ++ "a.cpp" ++ rest) :=
  ⟨(compiler_name_selector (CompileConfig.ctor false)).2.2.2.2.1
      { CompileConfig.ctor false with gcc_version := 7 } (by decide),
   (compiler_name_selector (CompileConfig.ctor false)).2.2.2.2.2
      "/repo" "a.cpp" "a.so" true (by decide)⟩

/-! ## Typed constants -/

/-- The constructor `TypedConstant(int32 x)` stores `x`. -/
theorem val_i32_of_i32 (x : Int) (high : Nat)
    (hx : -2147483648 ≤ x ∧ x ≤ 2147483647) :
    (TypedConstant.of_i32 x high).val_i32 = x := by
  unfold TypedConstant.val_i32 TypedConstant.of_i32
  simp only
  split <;> omega

/-- Claim C14 (unsupported types are fatal, not silently handled).
`stringify` reaches the not-implemented fatal path if and only if `dt` is
neither `f32` nor `i32`; `equal_type_and_value` returns false without failing
whenever the two types differ, and when they are equal it reaches the fatal
path if and only if that type is neither `f32` nor `i32`; so a
default-constructed constant can neither be stringified nor compared with
another default-constructed constant; and for `i32` constants it returns true
exactly when the two 32-bit values are equal. -/
theorem typed_constant_unsupported {F : Type} (fp : Float32Ops F) (c : TypedConstant) :
    (c.stringify fp = none ↔ c.dt ≠ DataType.f32 ∧ c.dt ≠ DataType.i32) ∧
    (∀ o : TypedConstant, c.dt ≠ o.dt → c.equal_type_and_value fp o = some false) ∧
    (∀ o : TypedConstant, c.dt = o.dt →
      (c.equal_type_and_value fp o = none ↔ c.dt ≠ DataType.f32 ∧ c.dt ≠ DataType.i32)) ∧
    (∀ bits bits2 : Nat,
      (TypedConstant.ctor bits).stringify fp = none ∧
      (TypedConstant.ctor bits).equal_type_and_value fp (TypedConstant.ctor bits2) = none) ∧
    (∀ o : TypedConstant, c.dt = DataType.i32 → o.dt = DataType.i32 →
      ∃ r, c.equal_type_and_value fp o = some r ∧ (r = true ↔ c.val_i32 = o.val_i32)) ∧
    (∀ (x y : Int) (hx hy : Nat),
      -2147483648 ≤ x ∧ x ≤ 2147483647 → -2147483648 ≤ y ∧ y ≤ 2147483647 →
      ((TypedConstant.of_i32 x hx).equal_type_and_value fp (TypedConstant.of_i32 y hy)
        = some true ↔ x = y)) := by
  refine ⟨?_, ?_, ?_, ?_, ?_, ?_⟩
  · unfold TypedConstant.stringify TC_NOT_IMPLEMENTED
    by_cases h1 : c.dt = DataType.f32
    · simp [h1]
    · by_cases h2 : c.dt = DataType.i32
      · simp [h2]
      · simp [h1, h2]
  · intro o h
    unfold TypedConstant.equal_type_and_value
    rw [if_pos h]
  · intro o h
    unfold TypedConstant.equal_type_and_value TC_NOT_IMPLEMENTED
    rw [if_neg (not_not.2 h)]
    by_cases h1 : c.dt = DataType.f32
    · simp [h1]
    · by_cases h2 : c.dt = DataType.i32
      · simp [h2]
      · simp [h1, h2]
  · intro bits bits2
    exact ⟨rfl, rfl⟩
  · intro o h1 h2
    refine ⟨decide (c.val_i32 = o.val_i32), ?_, by simp⟩
    unfold TypedConstant.equal_type_and_value
    simp [h1, h2]
  · intro x y hx hy hxr hyr
    have e1 := val_i32_of_i32 x hx hxr
    have e2 := val_i32_of_i32 y hy hyr
    unfold TypedConstant.equal_type_and_value
    have d1 : (TypedConstant.of_i32 x hx).dt = DataType.i32 := rfl
    have d2 : (TypedConstant.of_i32 y hy).dt = DataType.i32 := rfl
    simp [d1, d2, e1, e2]

/-- Claim C14 for the constants `TypedConstant(7)` and `TypedConstant(-3)`. -/
theorem typed_constant_unsupported_witness :
    (TypedConstant.of_i32 7 0).equal_type_and_value bitsOps (TypedConstant.of_i32 7 1)
      = some true ∧
    ¬ ((TypedConstant.of_i32 7 0).equal_type_and_value bitsOps (TypedConstant.of_i32 (-3) 0)
      = some true) :=
  ⟨((typed_constant_unsupported bitsOps (TypedConstant.ctor 0)).2.2.2.2.2 7 7 0 1
      (by decide) (by decide)).2 rfl,
   fun h => absurd
    (((typed_constant_unsupported bitsOps (TypedConstant.ctor 0)).2.2.2.2.2 7 (-3) 0 0
      (by decide) (by decide)).1 h) (by decide)⟩

/-! ## Binary operators -/

/-- Claim C15 (exactly six comparison operators). In every state of the
static name map, `is_comparison(t)` is true exactly when `t` is one of
`cmp_lt`, `cmp_le`, `cmp_gt`, `cmp_ge`, `cmp_eq`, `cmp_ne`; it is false for
`mul`, `add`, `sub`, `div`, `mod`, `max`, `min`, `bit_and`, `bit_or` and for
`BinaryType::undefined`, whose name lookup yields the empty string; and the
call leaves the map in one of its states. -/
theorem is_comparison_six (type_names : List (BinaryType × String))
    (hs : TypeNamesState type_names) (t : BinaryType) :
    ((is_comparison type_names t).1 = true ↔
      t = BinaryType.cmp_lt ∨ t = BinaryType.cmp_le ∨ t = BinaryType.cmp_gt ∨
      t = BinaryType.cmp_ge ∨ t = BinaryType.cmp_eq ∨ t = BinaryType.cmp_ne) ∧
    ((t = BinaryType.mul ∨ t = BinaryType.add ∨ t = BinaryType.sub ∨ t = BinaryType.div ∨
      t = BinaryType.mod ∨ t = BinaryType.max ∨ t = BinaryType.min ∨
      t = BinaryType.bit_and ∨ t = BinaryType.bit_or ∨ t = BinaryType.undefined) →
      (is_comparison type_names t).1 = false) ∧
    (binary_type_name type_names BinaryType.undefined).1 = "" ∧
    TypeNamesState (is_comparison type_names t).2 ∧
    ([BinaryType.mul, BinaryType.add, BinaryType.sub, BinaryType.div, BinaryType.mod,
      BinaryType.max, BinaryType.min, BinaryType.bit_and, BinaryType.bit_or,
      BinaryType.cmp_lt, BinaryType.cmp_le, BinaryType.cmp_gt, BinaryType.cmp_ge,
      BinaryType.cmp_eq, BinaryType.cmp_ne, BinaryType.undefined].filter
        fun u => (is_comparison type_names u).1).length = 6 := by
  unfold TypeNamesState at hs ⊢
  rcases hs with h | h | h <;> subst h <;> cases t <;> decide

/-- Claim C15 at the first call, for `cmp_ne` and for `max`. -/
theorem is_comparison_six_witness :
    (is_comparison [] BinaryType.cmp_ne).1 = true ∧
    (is_comparison [] BinaryType.max).1 = false :=
  ⟨(is_comparison_six [] (Or.inl rfl) BinaryType.cmp_ne).1.2
      (Or.inr (Or.inr (Or.inr (Or.inr (Or.inr rfl))))),
   (is_comparison_six [] (Or.inl rfl) BinaryType.max).2.1
      (Or.inr (Or.inr (Or.inr (Or.inr (Or.inr (Or.inl rfl))))))⟩

end Tlang
